import Mathlib

/-!
Verification of the cover-letter block model and dual-format export pipeline
of app.py: header detection (extract_candidate_lines_from_text), paragraph
segmentation (_split_blocks), canonical reassembly (assemble_text_value) and
the two export backends (build_docx, build_pdf).

Strings are modelled as lists of characters.  Python text operations
(str.split on a newline, str.strip, str.rstrip, str.startswith) are given
executable definitions below; the whitespace set is the ASCII whitespace
set stripped by the Python str.strip default.
-/

/-- A single text line (or an arbitrary piece of text): a list of characters. -/
abbrev Line := List Char

/-- Characters stripped by the Python str.strip default (ASCII part). -/
def isPySpace (c : Char) : Bool :=
  c == ' ' || c == '\t' || c == '\n' || c == '\r' || c == '\x0b' || c == '\x0c'

/-- Python str.lstrip with no argument. -/
def lstrip (l : Line) : Line := l.dropWhile isPySpace

/-- Python str.rstrip with no argument. -/
def rstrip (l : Line) : Line := (l.reverse.dropWhile isPySpace).reverse

/-- Python str.strip with no argument. -/
def pyStrip (l : Line) : Line := rstrip (lstrip l)

/-- Python truth test "not line.strip()": the line is whitespace-only. -/
def pyIsBlank (l : Line) : Bool := (pyStrip l).isEmpty

/-- Python str.strip applied to the single-newline string, as in
block_text.strip of the newline in assemble_text_value. -/
def stripNl (l : Line) : Line :=
  ((l.dropWhile (fun c => c == '\n')).reverse.dropWhile (fun c => c == '\n')).reverse

/-- Python text.split on the newline separator: always returns at least one
piece, and empty pieces between consecutive newlines are kept. -/
def splitLines : List Char → List Line
  | [] => [[]]
  | c :: rest =>
    match splitLines rest with
    | [] => [[c]]
    | l :: ls => if c == '\n' then [] :: l :: ls else (c :: l) :: ls

/-- The one-newline separator string. -/
def nl : List Char := ['\n']

/-- The two-newline separator string used between reassembled units. -/
def nl2 : List Char := ['\n', '\n']

/-- Convert a Lean string literal to the character-list model. -/
def s2l (s : String) : List Char := s.data

/-- The scanning loop of extract_candidate_lines_from_text (app.py lines
305 to 318): walks the lines, skipping leading blanks before the scan has
started, collecting the strip of every line that starts with a space
character, consuming blank lines once something has been collected, and
stopping at the first other line. -/
def scanHeader : List Line → Bool → List Line → Nat → List Line × Nat
  | [], _, collected, consumed => (collected, consumed)
  | line :: rest, started, collected, consumed =>
    if !started && pyIsBlank line then
      scanHeader rest started collected (consumed + 1)
    else if line.head? == some ' ' then
      scanHeader rest true (collected ++ [pyStrip line]) (consumed + 1)
    else if pyIsBlank line && !collected.isEmpty then
      scanHeader rest true collected (consumed + 1)
    else
      (collected, consumed)

/-- Header detection, app.py lines 298 to 321: returns the pair of an empty
list and zero when the fallback list is empty, the collected lines and
consumed count when the scan collected something, and otherwise the fallback
lines with a consumed count equal to their number. -/
def extract_candidate_lines_from_text (text : List Char) (default_lines : List Line) :
    List Line × Nat :=
  if default_lines.isEmpty then ([], 0)
  else
    let r := scanHeader (splitLines text) false [] 0
    if r.1.isEmpty then (default_lines, default_lines.length) else r

/-- The accumulation loop of _split_blocks (app.py lines 331 to 341): a blank
line flushes the non-empty current block, a non-blank line is right-stripped
and appended to the current block, and a non-empty trailing block is flushed
at the end. -/
def splitBlocksCore : List Line → List Line → List (List Line)
  | [], current => if current.isEmpty then [] else [current]
  | line :: rest, current =>
    if pyIsBlank line then
      if current.isEmpty then splitBlocksCore rest [] else current :: splitBlocksCore rest []
    else
      splitBlocksCore rest (current ++ [rstrip line])

/-- Block segmentation, app.py lines 325 to 341: drop the first skip_lines
raw lines, pop further leading blank lines, then run the accumulation loop. -/
def split_blocks (text : List Char) (skip_lines : Nat) : List (List Line) :=
  let lines := splitLines text
  let remaining := (lines.drop skip_lines).dropWhile pyIsBlank
  splitBlocksCore remaining []

/-- Reassembly, app.py lines 344 to 364 (assemble_text_value): the candidate
lines form the first unit, merged with the first block when the company flag
is set and a block exists; remaining blocks are newline-joined, stripped of
edge newlines and kept when non-empty; units are joined by a blank line and
the whole result is stripped. -/
def assemble_text_value (candidate_lines : List Line) (blocks : List (List Line))
    (include_company_block : Bool) : List Char :=
  let p : List (List Char) × Nat :=
    match candidate_lines, blocks with
    | [], _ => ([], 0)
    | _ :: _, b :: _ =>
      if include_company_block then
        ([List.intercalate nl (candidate_lines ++ b)], 1)
      else
        ([List.intercalate nl candidate_lines], 0)
    | _ :: _, [] => ([List.intercalate nl candidate_lines], 0)
  let restUnits : List (List Char) :=
    (blocks.drop p.2).filterMap (fun b =>
      let bt := stripNl (List.intercalate nl b)
      if bt.isEmpty then none else some bt)
  pyStrip (List.intercalate nl2 (p.1 ++ restUnits))

/-- The detect-then-segment pass the app runs on a text (app.py lines 886 to
892 and 909 to 915): header detection with a fallback, then segmentation
skipping the consumed lines when candidate lines were returned. -/
def detectSegment (text : List Char) (fallback : List Line) :
    (List Line × Nat) × List (List Line) :=
  let r := extract_candidate_lines_from_text text fallback
  (r, split_blocks text (if r.1.isEmpty then 0 else r.2))

/-- One full detect-segment-reassemble cycle on a text (app.py lines 886 to
898): the canonical editable text rebuilt from the detected header lines and
segmented blocks. -/
def renderCycle (text : List Char) (fallback : List Line) (merge : Bool) : List Char :=
  assemble_text_value (detectSegment text fallback).1.1 (detectSegment text fallback).2 merge

/-- The only key of the sections_state mapping read by the export backends. -/
structure SectionsState where
  candidate_block : Bool
deriving DecidableEq

/-- The only alignment value ever set on a docx paragraph (WD_ALIGN_PARAGRAPH.RIGHT);
absence of a value leaves the default left alignment. -/
inductive DocxAlign
  | right
deriving DecidableEq

/-- A paragraph of the generated docx document: its text, optional explicit
alignment, spacing in points, and optional explicit line spacing. -/
structure DocxParagraph where
  text : List Char
  alignment : Option DocxAlign
  spaceAfter : Nat
  spaceBefore : Nat
  lineSpacing : Option Nat
deriving DecidableEq

/-- The add_block helper inside build_docx (app.py lines 380 to 387): one
paragraph per line, stripped and right-aligned when align_right is set, with
zero space after, zero space before and single line spacing. -/
def addBlockParas (lines : List Line) (align_right : Bool) : List DocxParagraph :=
  lines.map (fun line =>
    { text := if align_right then pyStrip line else line
      alignment := if align_right then some DocxAlign.right else none
      spaceAfter := 0
      spaceBefore := 0
      lineSpacing := some 1 })

/-- The empty spacer paragraph added between docx body blocks (app.py lines
395 to 397): empty text, zero spacing, line spacing left unset. -/
def spacerParagraph : DocxParagraph :=
  { text := [], alignment := none, spaceAfter := 0, spaceBefore := 0, lineSpacing := none }

/-- The body loop of build_docx (app.py lines 392 to 397): each block is
rendered with add_block and a spacer paragraph follows every block except
the last. -/
def docxBodyParas : List (List Line) → List DocxParagraph
  | [] => []
  | [b] => addBlockParas b false
  | b :: b2 :: rest => addBlockParas b false ++ [spacerParagraph] ++ docxBodyParas (b2 :: rest)

/-- build_docx, app.py lines 367 to 401, modelled as the list of paragraphs
of the produced document: the effective candidate count gates both the
header paragraphs and whether segmentation skips the consumed lines. -/
def build_docx (text : List Char) (sections_state : SectionsState)
    (candidate_lines : List Line) (candidate_line_consumed : Nat) : List DocxParagraph :=
  let candidate_count := if sections_state.candidate_block then candidate_lines.length else 0
  let blocks := split_blocks text (if candidate_count ≠ 0 then candidate_line_consumed else 0)
  (if candidate_count ≠ 0 then addBlockParas candidate_lines true else []) ++ docxBodyParas blocks

/-- ReportLab paragraph alignment constants used by build_pdf. -/
inductive PdfAlign
  | taLeft
  | taRight
deriving DecidableEq

/-- The fields of the ReportLab ParagraphStyle objects set by build_pdf. -/
structure PdfStyle where
  fontName : List Char
  fontSize : Nat
  leading : Nat
  alignment : PdfAlign
  spaceBefore : Nat
  spaceAfter : Nat
deriving DecidableEq

/-- The Body style of build_pdf (app.py lines 426 to 435). -/
def body_style : PdfStyle :=
  { fontName := s2l "Helvetica", fontSize := 12, leading := 14,
    alignment := PdfAlign.taLeft, spaceBefore := 0, spaceAfter := 8 }

/-- The Candidate style of build_pdf (app.py lines 436 to 441): the body
style with right alignment and space after six points. -/
def candidate_style : PdfStyle :=
  { body_style with alignment := PdfAlign.taRight, spaceAfter := 6 }

/-- Expansion of one character by the Python html.escape default. -/
def htmlEscapeChar (c : Char) : List Char :=
  if c == '&' then s2l "&amp;"
  else if c == '<' then s2l "&lt;"
  else if c == '>' then s2l "&gt;"
  else if c == '"' then s2l "&quot;"
  else if c == '\'' then s2l "&#x27;"
  else [c]

/-- Python html.escape on a whole string. -/
def htmlEscape (l : Line) : List Char := (l.map htmlEscapeChar).flatten

/-- The para_text helper of build_pdf (app.py lines 445 to 446): lines are
escaped, blank lines replaced by a non-breaking space entity, and joined by
a line-break tag. -/
def para_text (lines : List Line) : List Char :=
  List.intercalate (s2l "<br/>")
    (lines.map (fun line => if pyIsBlank line then s2l "&nbsp;" else htmlEscape line))

/-- A flowable of the generated PDF story: the source lines handed to
para_text, the markup text actually passed to the Paragraph constructor,
and the style. -/
structure PdfFlowable where
  paraLines : List Line
  text : List Char
  style : PdfStyle
deriving DecidableEq

/-- A ReportLab Paragraph built from source lines via para_text. -/
def pdfParagraph (lines : List Line) (style : PdfStyle) : PdfFlowable :=
  { paraLines := lines, text := para_text lines, style := style }

/-- build_pdf, app.py lines 404 to 459, modelled as the story list handed to
doc.build: an optional right-aligned candidate flowable, one body flowable
per block, and a single empty placeholder paragraph when the story would
otherwise be empty. -/
def build_pdf (text : List Char) (sections_state : SectionsState)
    (candidate_lines : List Line) (candidate_line_consumed : Nat) : List PdfFlowable :=
  let candidate_count := if sections_state.candidate_block then candidate_lines.length else 0
  let blocks := split_blocks text (if candidate_count ≠ 0 then candidate_line_consumed else 0)
  let story :=
    (if candidate_count ≠ 0 then [pdfParagraph candidate_lines candidate_style] else []) ++
      blocks.map (fun b => pdfParagraph b body_style)
  if story.isEmpty then [pdfParagraph [] body_style] else story

/-- Number of non-blank lines of an input text. -/
def nonblankLineCount (text : List Char) : Nat :=
  ((splitLines text).filter (fun l => !pyIsBlank l)).length

/-- Number of docx paragraphs carrying non-blank text. -/
def docxTextLineCount (paras : List DocxParagraph) : Nat :=
  (paras.filter (fun p => !pyIsBlank p.text)).length

/-- Total number of non-blank source lines over the flowables of a PDF story. -/
def pdfTextLineCount (story : List PdfFlowable) : Nat :=
  (story.map (fun p => (p.paraLines.filter (fun l => !pyIsBlank l)).length)).sum

/-- A fallback header line that is safe for the round trip: whitespace-only
lines and embedded newlines are excluded. -/
def cleanLine (l : Line) : Prop := pyIsBlank l = false ∧ ('\n' ∈ l → False)

/-- A paragraph block in canonical form: non-empty, with every line
non-blank, right-stripped and free of embedded newlines. -/
def niceBlock (b : List Line) : Prop :=
  b ≠ [] ∧ ∀ l ∈ b, pyIsBlank l = false ∧ rstrip l = l ∧ ('\n' ∈ l → False)

instance (l : Line) : Decidable (cleanLine l) := by
  unfold cleanLine
  infer_instance

instance (b : List Line) : Decidable (niceBlock b) := by
  unfold niceBlock
  infer_instance

/-- The line list obtained by interspersing one blank line between the line
lists of consecutive units, as the double-newline join does at line level. -/
def sepJoin : List (List Line) → List Line
  | [] => []
  | [u] => u
  | u :: u2 :: rest => u ++ [[]] ++ sepJoin (u2 :: rest)

/-- Right-strip only the last line of a line list. -/
def rstripLast : List Line → List Line
  | [] => []
  | [z] => [rstrip z]
  | a :: b :: rest => a :: rstripLast (b :: rest)

/-- Claim C2 counterexample: with the Jane Doe header lines and the two
example blocks, merge false, the reassembled text does not carry the header
lines with a leading space (its first line is the bare string Jane Doe) and
re-detection with the same fallback consumes 3 lines, not 4. -/
theorem c2_counterexample :
    assemble_text_value
        [s2l "Jane Doe", s2l "123 Elm St", s2l "Springfield"]
        [[s2l "Dear Hiring Manager,", s2l "I am writing to apply..."],
          [s2l "Sincerely,", s2l "Jane Doe"]] false =
      s2l "Jane Doe\n123 Elm St\nSpringfield\n\nDear Hiring Manager,\nI am writing to apply...\n\nSincerely,\nJane Doe" ∧
    (extract_candidate_lines_from_text
        (assemble_text_value
          [s2l "Jane Doe", s2l "123 Elm St", s2l "Springfield"]
          [[s2l "Dear Hiring Manager,", s2l "I am writing to apply..."],
            [s2l "Sincerely,", s2l "Jane Doe"]] false)
        [s2l "Jane Doe", s2l "123 Elm St", s2l "Springfield"]).2 ≠ 4 := by
  constructor
  · decide
  · decide

/-- Claim C2 (amended): with the Jane Doe header lines and the two example
blocks, merge false, the reassembler emits the header lines with no leading
space marker, and re-detection on that output with the same fallback returns
the same three header lines through the fallback path with a consumed count
of 3, the bare header line count. -/
theorem c2_reassemble_redetect_example :
    assemble_text_value
        [s2l "Jane Doe", s2l "123 Elm St", s2l "Springfield"]
        [[s2l "Dear Hiring Manager,", s2l "I am writing to apply..."],
          [s2l "Sincerely,", s2l "Jane Doe"]] false =
      s2l "Jane Doe\n123 Elm St\nSpringfield\n\nDear Hiring Manager,\nI am writing to apply...\n\nSincerely,\nJane Doe" ∧
    extract_candidate_lines_from_text
        (assemble_text_value
          [s2l "Jane Doe", s2l "123 Elm St", s2l "Springfield"]
          [[s2l "Dear Hiring Manager,", s2l "I am writing to apply..."],
            [s2l "Sincerely,", s2l "Jane Doe"]] false)
        [s2l "Jane Doe", s2l "123 Elm St", s2l "Springfield"] =
      ([s2l "Jane Doe", s2l "123 Elm St", s2l "Springfield"], 3) := by
  constructor
  · decide
  · decide

/-- Claim C3 counterexample: with the whitespace-only fallback line list
containing one empty string, merge false, the first cycle output of the text
a blank b c is the two-line text b newline c, whose detect-segment result
(blocks containing only the line c) differs from the detect-segment result
of the second cycle output (no blocks at all): the cycle is not a fixed
point there. -/
theorem c3_counterexample :
    renderCycle (s2l "a\n\nb\nc") [[]] false = s2l "b\nc" ∧
    detectSegment (renderCycle (renderCycle (s2l "a\n\nb\nc") [[]] false) [[]] false) [[]] ≠
      detectSegment (renderCycle (s2l "a\n\nb\nc") [[]] false) [[]] := by
  constructor
  · decide
  · decide

/-- Claim C4 counterexample: for the single block whose only line carries a
trailing space, segmenting the reassembled text does not return the block
unchanged: the trailing space has been stripped. -/
theorem c4_counterexample :
    split_blocks (assemble_text_value [] [[s2l "x "]] false) 0 ≠ [[s2l "x "]] := by
  decide

/-- Claim C5 counterexample: with input text a, header line list h and
consumed count 0 and the header flag enabled, both backends render two
non-blank text lines while the input has a single non-blank line. -/
theorem c5_counterexample :
    docxTextLineCount (build_docx (s2l "a") ⟨true⟩ [s2l "h"] 0) ≠ nonblankLineCount (s2l "a") ∧
    pdfTextLineCount (build_pdf (s2l "a") ⟨true⟩ [s2l "h"] 0) ≠ nonblankLineCount (s2l "a") := by
  constructor
  · decide
  · decide

/-- Claim C8 counterexample: on the two-block input a blank b with no header,
the PDF backend emits exactly two body flowables with no blank spacer unit
between them, and its body style carries a space-after of eight points, not
zero. -/
theorem c8_counterexample :
    build_pdf (s2l "a\n\nb") ⟨false⟩ [] 0 =
      [pdfParagraph [s2l "a"] body_style, pdfParagraph [s2l "b"] body_style] ∧
    body_style.spaceAfter ≠ 0 := by
  constructor
  · decide
  · decide

/-- Claim C10: once scanning has started, a whitespace-only line whose first
character is a space is collected as a header line equal to the empty
string rather than merely consumed: on the text consisting of the lines
space-a, single-space and b with the non-empty fallback list containing z,
detection returns the collected lines a and the empty string with a
consumed count of 2. -/
theorem c10_blank_header_line_collected :
    extract_candidate_lines_from_text (s2l " a\n \nb") [s2l "z"] = ([s2l "a", []], 2) := by
  decide

lemma lstrip_head_not_space {l : Line} {c : Char} {t : List Char}
    (h : lstrip l = c :: t) : isPySpace c = false := by
  induction l with
  | nil => simp [lstrip] at h
  | cons a r ih =>
    by_cases hp : isPySpace a
    · rw [lstrip, List.dropWhile_cons_of_pos hp] at h
      exact ih h
    · rw [lstrip, List.dropWhile_cons_of_neg hp] at h
      cases h
      simpa using hp

lemma rstrip_prefix_self (l : Line) : rstrip l <+: l := by
  have h := List.dropWhile_suffix (l := l.reverse) isPySpace
  have h2 : (rstrip l).reverse <:+ l.reverse := by
    rw [rstrip, List.reverse_reverse]
    exact h
  exact List.reverse_suffix.mp h2

lemma lstrip_sublist (l : Line) : List.Sublist (lstrip l) l := List.dropWhile_sublist isPySpace

lemma rstrip_sublist (l : Line) : List.Sublist (rstrip l) l := (rstrip_prefix_self l).sublist

lemma pyStrip_sublist (l : Line) : List.Sublist (pyStrip l) l :=
  ((rstrip_sublist (lstrip l)).trans (lstrip_sublist l))

lemma lstrip_eq_nil_iff {l : Line} : lstrip l = [] ↔ ∀ c ∈ l, isPySpace c := by
  rw [lstrip]
  exact List.dropWhile_eq_nil_iff

lemma rstrip_eq_nil_iff {l : Line} : rstrip l = [] ↔ ∀ c ∈ l, isPySpace c := by
  rw [rstrip]
  constructor
  · intro h c hc
    have h2 : l.reverse.dropWhile isPySpace = [] := by
      have := congrArg List.reverse h
      simpa using this
    exact List.dropWhile_eq_nil_iff.mp h2 c (List.mem_reverse.mpr hc)
  · intro h
    have h2 : l.reverse.dropWhile isPySpace = [] :=
      List.dropWhile_eq_nil_iff.mpr (fun c hc => h c (List.mem_reverse.mp hc))
    rw [h2]
    rfl

lemma all_space_of_lstrip {l : Line} (h : ∀ c ∈ lstrip l, isPySpace c) :
    ∀ c ∈ l, isPySpace c := by
  intro c hc
  have hsplit : l.takeWhile isPySpace ++ l.dropWhile isPySpace = l :=
    List.takeWhile_append_dropWhile isPySpace l
  rw [← hsplit] at hc
  rcases List.mem_append.mp hc with h1 | h2
  · exact List.mem_takeWhile_imp h1
  · exact h c h2

lemma pyIsBlank_iff_all {l : Line} : pyIsBlank l = true ↔ ∀ c ∈ l, isPySpace c := by
  rw [pyIsBlank, pyStrip, List.isEmpty_iff, rstrip_eq_nil_iff]
  constructor
  · exact all_space_of_lstrip
  · intro h c hc
    exact h c (List.Sublist.mem hc (lstrip_sublist l))

lemma pyIsBlank_lstrip (l : Line) : pyIsBlank (lstrip l) = pyIsBlank l := by
  by_cases h : pyIsBlank l = true
  · rw [h]
    rw [pyIsBlank_iff_all]
    intro c hc
    exact (pyIsBlank_iff_all.mp h) c (List.Sublist.mem hc (lstrip_sublist l))
  · rw [Bool.not_eq_true] at h
    rw [h]
    rw [← Bool.not_eq_true, pyIsBlank_iff_all]
    intro hall
    have : pyIsBlank l = true := pyIsBlank_iff_all.mpr (all_space_of_lstrip hall)
    simp [this] at h

lemma all_space_of_rstrip {l : Line} (h : ∀ c ∈ rstrip l, isPySpace c) :
    ∀ c ∈ l, isPySpace c := by
  intro c hc
  have hsplit : l.reverse.takeWhile isPySpace ++ l.reverse.dropWhile isPySpace = l.reverse :=
    List.takeWhile_append_dropWhile isPySpace l.reverse
  have hc2 : c ∈ l.reverse := List.mem_reverse.mpr hc
  rw [← hsplit] at hc2
  rcases List.mem_append.mp hc2 with h1 | h2
  · exact List.mem_takeWhile_imp h1
  · refine h c ?_
    rw [rstrip, List.mem_reverse]
    exact h2

lemma pyIsBlank_rstrip (l : Line) : pyIsBlank (rstrip l) = pyIsBlank l := by
  by_cases h : pyIsBlank l = true
  · rw [h, pyIsBlank_iff_all]
    intro c hc
    exact (pyIsBlank_iff_all.mp h) c (List.Sublist.mem hc (rstrip_sublist l))
  · rw [Bool.not_eq_true] at h
    rw [h, ← Bool.not_eq_true, pyIsBlank_iff_all]
    intro hall
    have : pyIsBlank l = true := pyIsBlank_iff_all.mpr (all_space_of_rstrip hall)
    simp [this] at h

lemma pyIsBlank_pyStrip (l : Line) : pyIsBlank (pyStrip l) = pyIsBlank l := by
  rw [pyStrip, pyIsBlank_rstrip, pyIsBlank_lstrip]

lemma lstrip_ne_nil_of_nonblank {l : Line} (h : pyIsBlank l = false) : lstrip l ≠ [] := by
  intro hnil
  have : pyIsBlank l = true := pyIsBlank_iff_all.mpr (lstrip_eq_nil_iff.mp hnil)
  rw [h] at this
  exact Bool.false_ne_true this

lemma rstrip_ne_nil_of_nonblank {l : Line} (h : pyIsBlank l = false) : rstrip l ≠ [] := by
  intro hnil
  have : pyIsBlank l = true := pyIsBlank_iff_all.mpr (rstrip_eq_nil_iff.mp hnil)
  rw [h] at this
  exact Bool.false_ne_true this

lemma lstrip_cons_of_neg {c : Char} {l : Line} (h : isPySpace c = false) :
    lstrip (c :: l) = c :: l := by
  rw [lstrip, List.dropWhile_cons_of_neg (by simp [h])]

lemma lstrip_append_of_ne_nil {a b : List Char} (h : lstrip a ≠ []) :
    lstrip (a ++ b) = lstrip a ++ b := by
  induction a with
  | nil => simp [lstrip] at h
  | cons c r ih =>
    by_cases hp : isPySpace c
    · have h2 : lstrip r ≠ [] := by
        rw [lstrip, List.dropWhile_cons_of_pos hp] at h
        exact h
      have e1 : lstrip ((c :: r) ++ b) = lstrip (r ++ b) := by
        rw [List.cons_append, lstrip, lstrip, List.dropWhile_cons_of_pos hp]
      have e2 : lstrip (c :: r) = lstrip r := by
        rw [lstrip, lstrip, List.dropWhile_cons_of_pos hp]
      rw [e1, e2]
      exact ih h2
    · have hp2 : isPySpace c = false := by simpa using hp
      rw [List.cons_append, lstrip_cons_of_neg hp2, lstrip_cons_of_neg hp2]
      rfl

lemma rstrip_append_of_ne_nil {a b : List Char} (h : rstrip b ≠ []) :
    rstrip (a ++ b) = a ++ rstrip b := by
  have hb : lstrip b.reverse ≠ [] := by
    intro hnil
    apply h
    have : rstrip b = (lstrip b.reverse).reverse := rfl
    rw [this, hnil]
    rfl
  have step : lstrip (b.reverse ++ a.reverse) = lstrip b.reverse ++ a.reverse :=
    lstrip_append_of_ne_nil hb
  have e1 : rstrip (a ++ b) = (lstrip ((a ++ b).reverse)).reverse := rfl
  rw [e1, List.reverse_append, step, List.reverse_append, List.reverse_reverse]
  rfl

lemma rstrip_cons_of_neg {c : Char} {l : Line} (h : isPySpace c = false) :
    rstrip (c :: l) = c :: rstrip l := by
  by_cases hl : rstrip l = []
  · have hall : ∀ x ∈ l.reverse, isPySpace x := by
      intro x hx
      exact rstrip_eq_nil_iff.mp hl x (List.mem_reverse.mp hx)
    rw [hl, rstrip, List.reverse_cons, List.dropWhile_append_of_pos hall,
      List.dropWhile_cons_of_neg (by simp [h])]
    rfl
  · have e : c :: l = [c] ++ l := rfl
    rw [e, rstrip_append_of_ne_nil hl]
    rfl

lemma pyIsBlank_cons_of_neg {c : Char} {l : Line} (h : isPySpace c = false) :
    pyIsBlank (c :: l) = false := by
  rw [← Bool.not_eq_true, pyIsBlank_iff_all]
  intro hall
  have := hall c (List.mem_cons_self c l)
  rw [h] at this
  exact Bool.false_ne_true this

lemma pyIsBlank_nil : pyIsBlank [] = true := rfl

lemma pyStrip_head_not_space {y : List Char} {c : Char} {t : List Char}
    (h : pyStrip y = c :: t) : isPySpace c = false := by
  have hpre : rstrip (lstrip y) <+: lstrip y := rstrip_prefix_self (lstrip y)
  rw [pyStrip] at h
  rcases hpre with ⟨s, hs⟩
  rw [h] at hs
  have : lstrip y = c :: (t ++ s) := by
    rw [← hs]
    rfl
  exact lstrip_head_not_space this

lemma splitLines_ne_nil (t : List Char) : splitLines t ≠ [] := by
  induction t with
  | nil =>
    intro h
    simp [splitLines] at h
  | cons c r ih =>
    intro h
    rw [splitLines] at h
    rcases hr : splitLines r with _ | ⟨l, ls⟩
    · exact ih hr
    · rw [hr] at h
      by_cases hc : c = '\n'
      · simp [hc] at h
      · simp [hc] at h

lemma splitLines_cons_of_ne {c : Char} {t : List Char} {l : Line} {ls : List Line}
    (hc : c ≠ '\n') (ht : splitLines t = l :: ls) :
    splitLines (c :: t) = (c :: l) :: ls := by
  rw [splitLines, ht]
  simp [hc]

lemma scan_nil_of_pyStrip (y : List Char) :
    (scanHeader (splitLines (pyStrip y)) false [] 0).1 = [] := by
  rcases hs : pyStrip y with _ | ⟨c, t⟩
  · decide
  · have hc := pyStrip_head_not_space hs
    have hcn : c ≠ '\n' := by
      intro he
      rw [he] at hc
      exact absurd hc (by decide)
    rcases ht : splitLines t with _ | ⟨l, ls⟩
    · exact absurd ht (splitLines_ne_nil t)
    · rw [splitLines_cons_of_ne hcn ht]
      have hb : pyIsBlank (c :: l) = false := pyIsBlank_cons_of_neg hc
      have hsp : c ≠ ' ' := by
        intro he
        rw [he] at hc
        exact absurd hc (by decide)
      rw [scanHeader]
      simp [hb, hsp]

lemma extract_eq_fallback_of_scan_nil (text : List Char) (F : List Line)
    (h : (scanHeader (splitLines text) false [] 0).1 = []) :
    extract_candidate_lines_from_text text F = (F, F.length) := by
  rcases F with _ | ⟨a, r⟩
  · rfl
  · rw [extract_candidate_lines_from_text]
    have h2 : (scanHeader (splitLines text) false [] 0).1.isEmpty = true := by
      rw [h]
      rfl
    simp [h2]

lemma assemble_is_pyStrip (candidate_lines : List Line) (blocks : List (List Line))
    (include_company_block : Bool) :
    ∃ y, assemble_text_value candidate_lines blocks include_company_block = pyStrip y :=
  ⟨_, rfl⟩

/-- Claim C1: for every header line list H, every block sequence B and both
values of the merge flag, header detection with fallback H applied to the
reassembled text returns exactly H (with a consumed count equal to its
length) whenever H is non-empty.  The reassembled text is stripped, so its
first line never starts with a space and the scan collects nothing, making
detection return the fallback unchanged. -/
theorem c1_detect_after_assemble (H : List Line) (B : List (List Line)) (merge : Bool)
    (_hH : H ≠ []) :
    extract_candidate_lines_from_text (assemble_text_value H B merge) H = (H, H.length) := by
  rcases assemble_is_pyStrip H B merge with ⟨y, hy⟩
  rw [hy]
  exact extract_eq_fallback_of_scan_nil _ H (scan_nil_of_pyStrip y)

/-- Witness for C1 at concrete inputs. -/
theorem c1_detect_after_assemble_witness :
    extract_candidate_lines_from_text
        (assemble_text_value [s2l "Jane"] [[s2l "body"]] true) [s2l "Jane"] =
      ([s2l "Jane"], 1) :=
  c1_detect_after_assemble [s2l "Jane"] [[s2l "body"]] true (by decide)

/-- Claim C6: for every text and fallback list, an empty fallback makes
header detection return the empty list with consumed count zero, and a scan
that collects nothing makes it return the fallback unchanged with a consumed
count equal to the fallback length. -/
theorem c6_empty_and_fallback_policy (text : List Char) (F : List Line) :
    (F = [] → extract_candidate_lines_from_text text F = ([], 0)) ∧
    ((scanHeader (splitLines text) false [] 0).1 = [] →
      extract_candidate_lines_from_text text F = (F, F.length)) := by
  constructor
  · intro h
    subst h
    rfl
  · intro h
    exact extract_eq_fallback_of_scan_nil text F h

/-- Witness for C6 at concrete inputs, discharging both hypotheses. -/
theorem c6_empty_and_fallback_policy_witness :
    extract_candidate_lines_from_text (s2l "x") [] = ([], 0) ∧
    extract_candidate_lines_from_text (s2l "x") [s2l "f"] = ([s2l "f"], 1) :=
  ⟨(c6_empty_and_fallback_policy (s2l "x") []).1 rfl,
    (c6_empty_and_fallback_policy (s2l "x") [s2l "f"]).2 (by decide)⟩

lemma dropWhile_head_not {α : Type} (p : α → Bool) (x : List α) {a : α} {t : List α}
    (h : x.dropWhile p = a :: t) : p a = false := by
  induction x with
  | nil => simp at h
  | cons b r ih =>
    by_cases hp : p b
    · rw [List.dropWhile_cons_of_pos hp] at h
      exact ih h
    · rw [List.dropWhile_cons_of_neg hp] at h
      cases h
      simpa using hp

lemma rstrip_idem (l : Line) : rstrip (rstrip l) = rstrip l := by
  rcases h : l.reverse.dropWhile isPySpace with _ | ⟨a, t⟩
  · have h1 : rstrip l = [] := by
      rw [rstrip, h]
      rfl
    rw [h1]
    rfl
  · have h1 : rstrip l = (a :: t).reverse := by
      rw [rstrip, h]
    rw [h1, rstrip, List.reverse_reverse,
      List.dropWhile_cons_of_neg (by simp [dropWhile_head_not isPySpace l.reverse h])]

lemma splitBlocksCore_flatten (ls : List Line) :
    ∀ cur, (splitBlocksCore ls cur).flatten =
      cur ++ (ls.filter (fun l => !pyIsBlank l)).map rstrip := by
  induction ls with
  | nil =>
    intro cur
    rcases cur with _ | ⟨a, r⟩
    · rfl
    · simp [splitBlocksCore]
  | cons line rest ih =>
    intro cur
    rw [splitBlocksCore]
    by_cases hb : pyIsBlank line
    · rw [if_pos hb]
      rcases cur with _ | ⟨a, r⟩
      · have e : (if (([] : List Line)).isEmpty = true then splitBlocksCore rest []
            else [] :: splitBlocksCore rest []) = splitBlocksCore rest [] := rfl
        rw [e, ih []]
        simp [List.filter_cons, hb]
      · have e : (if ((a :: r : List Line)).isEmpty = true then splitBlocksCore rest []
            else (a :: r) :: splitBlocksCore rest []) = (a :: r) :: splitBlocksCore rest [] := rfl
        rw [e, List.flatten_cons, ih []]
        simp [List.filter_cons, hb]
    · rw [if_neg hb]
      rw [ih (cur ++ [rstrip line])]
      simp [List.filter_cons, hb]

lemma splitBlocksCore_mem (ls : List Line) :
    ∀ cur, (∀ l ∈ ls, ('\n' ∈ l → False)) →
      (∀ l ∈ cur, pyIsBlank l = false ∧ rstrip l = l ∧ ('\n' ∈ l → False)) →
      ∀ b ∈ splitBlocksCore ls cur,
        b ≠ [] ∧ ∀ l ∈ b, pyIsBlank l = false ∧ rstrip l = l ∧ ('\n' ∈ l → False) := by
  induction ls with
  | nil =>
    intro cur _ hcur b hb
    rcases cur with _ | ⟨a, r⟩
    · simp [splitBlocksCore] at hb
    · simp [splitBlocksCore] at hb
      subst hb
      exact ⟨by simp, hcur⟩
  | cons line rest ih =>
    intro cur hls hcur b hb
    have hls2 : ∀ l ∈ rest, ('\n' ∈ l → False) :=
      fun l hl => hls l (List.mem_cons_of_mem line hl)
    rw [splitBlocksCore] at hb
    by_cases hblk : pyIsBlank line
    · rw [if_pos hblk] at hb
      rcases cur with _ | ⟨a, r⟩
      · have e : (if (([] : List Line)).isEmpty = true then splitBlocksCore rest []
            else [] :: splitBlocksCore rest []) = splitBlocksCore rest [] := rfl
        rw [e] at hb
        exact ih [] hls2 (by simp) b hb
      · have e : (if ((a :: r : List Line)).isEmpty = true then splitBlocksCore rest []
            else (a :: r) :: splitBlocksCore rest []) = (a :: r) :: splitBlocksCore rest [] := rfl
        rw [e] at hb
        rcases List.mem_cons.mp hb with hb | hb
        · subst hb
          exact ⟨by simp, hcur⟩
        · exact ih [] hls2 (by simp) b hb
    · rw [if_neg hblk] at hb
      refine ih (cur ++ [rstrip line]) hls2 ?_ b hb
      intro l hl
      rcases List.mem_append.mp hl with hl | hl
      · exact hcur l hl
      · have hll : l = rstrip line := by simpa using hl
        subst hll
        refine ⟨?_, rstrip_idem line, ?_⟩
        · rw [pyIsBlank_rstrip]
          simpa using hblk
        · intro hmem
          exact hls line (List.mem_cons_self line rest)
            (List.Sublist.mem hmem (rstrip_sublist line))

lemma splitLines_no_newline (t : List Char) : ∀ l ∈ splitLines t, ('\n' ∈ l → False) := by
  induction t with
  | nil =>
    intro l hl
    simp [splitLines] at hl
    subst hl
    simp
  | cons c r ih =>
    intro l hl
    rw [splitLines] at hl
    rcases hr : splitLines r with _ | ⟨x, xs⟩
    · exact absurd hr (splitLines_ne_nil r)
    · rw [hr] at hl
      by_cases hc : c = '\n'
      · simp only [hc, beq_self_eq_true, if_pos] at hl
        rcases List.mem_cons.mp hl with hl | hl
        · subst hl
          simp
        · intro hmem
          exact ih l (hr ▸ hl) hmem
      · simp only [beq_iff_eq, hc, if_false] at hl
        rcases List.mem_cons.mp hl with hl | hl
        · subst hl
          intro hmem
          rcases List.mem_cons.mp hmem with hmem | hmem
          · exact hc hmem.symm
          · exact ih x (hr ▸ List.mem_cons_self x xs) hmem
        · intro hmem
          exact ih l (hr ▸ List.mem_cons_of_mem x hl) hmem

lemma split_blocks_blocks_ok (text : List Char) (skip : Nat) :
    ∀ b ∈ split_blocks text skip,
      b ≠ [] ∧ ∀ l ∈ b, pyIsBlank l = false ∧ rstrip l = l ∧ ('\n' ∈ l → False) := by
  apply splitBlocksCore_mem
  · intro l hl
    refine splitLines_no_newline text l ?_
    exact List.drop_subset skip (splitLines text) (List.dropWhile_subset pyIsBlank hl)
  · simp

lemma filter_nonblank_dropWhile (xs : List Line) :
    ((xs.dropWhile pyIsBlank).filter (fun l => !pyIsBlank l)) =
      xs.filter (fun l => !pyIsBlank l) := by
  induction xs with
  | nil => rfl
  | cons a r ih =>
    by_cases hb : pyIsBlank a
    · rw [List.dropWhile_cons_of_pos hb, ih, List.filter_cons]
      simp [hb]
    · rw [List.dropWhile_cons_of_neg hb]

lemma split_blocks_flatten (text : List Char) (skip : Nat) :
    (split_blocks text skip).flatten =
      (((splitLines text).drop skip).filter (fun l => !pyIsBlank l)).map rstrip := by
  rw [split_blocks]
  rw [splitBlocksCore_flatten]
  rw [filter_nonblank_dropWhile]
  rfl

/-- Claim C7: for every input text and skip count, the segmenter returns a
sequence in which every block is non-empty, every line of every block is
non-blank and equal to its own right-strip, and the concatenation of the
blocks is exactly the right-strips of the non-blank remaining input lines in
source order, so runs of blank lines collapse to a single boundary and no
empty block is ever produced. -/
theorem c7_segmenter_invariants (text : List Char) (skip : Nat) :
    (∀ b ∈ split_blocks text skip,
      b ≠ [] ∧ ∀ l ∈ b, pyIsBlank l = false ∧ rstrip l = l) ∧
    (split_blocks text skip).flatten =
      (((splitLines text).drop skip).filter (fun l => !pyIsBlank l)).map rstrip := by
  constructor
  · intro b hb
    rcases split_blocks_blocks_ok text skip b hb with ⟨h1, h2⟩
    exact ⟨h1, fun l hl => ⟨(h2 l hl).1, (h2 l hl).2.1⟩⟩
  · exact split_blocks_flatten text skip

lemma scanHeader_spec (L : List Line) :
    ∀ s c k, ∃ m d, scanHeader L s c k = (c ++ d, k + m) ∧ m ≤ L.length ∧
      ((L.take m).filter (fun l => !pyIsBlank l)).length =
        (d.filter (fun l => !pyIsBlank l)).length := by
  induction L with
  | nil =>
    intro s c k
    exact ⟨0, [], by simp [scanHeader], by simp, by simp⟩
  | cons line rest ih =>
    intro s c k
    rw [scanHeader]
    by_cases h1 : (!s && pyIsBlank line) = true
    · rw [if_pos h1]
      rcases ih s c (k + 1) with ⟨m, d, he, hm, hcount⟩
      have hb : pyIsBlank line = true := by
        have h1b := h1
        simp only [Bool.and_eq_true] at h1b
        exact h1b.2
      refine ⟨m + 1, d, ?_, by simpa using Nat.succ_le_succ hm, ?_⟩
      · rw [he]
        congr 1
        omega
      · rw [List.take_succ_cons, List.filter_cons]
        simp [hb, hcount]
    · rw [if_neg h1]
      by_cases h2 : (line.head? == some ' ') = true
      · rw [if_pos h2]
        rcases ih true (c ++ [pyStrip line]) (k + 1) with ⟨m, d, he, hm, hcount⟩
        refine ⟨m + 1, pyStrip line :: d, ?_, by simpa using Nat.succ_le_succ hm, ?_⟩
        · rw [he, List.append_assoc]
          congr 1
          omega
        · rw [List.take_succ_cons, List.filter_cons, List.filter_cons, pyIsBlank_pyStrip]
          by_cases hbl : pyIsBlank line
          · simp [hbl, hcount]
          · simp only [Bool.not_eq_true] at hbl
            simp [hbl, hcount]
      · rw [if_neg h2]
        by_cases h3 : (pyIsBlank line && !c.isEmpty) = true
        · rw [if_pos h3]
          rcases ih true c (k + 1) with ⟨m, d, he, hm, hcount⟩
          have hb : pyIsBlank line = true := by
            have h3b := h3
            simp only [Bool.and_eq_true] at h3b
            exact h3b.1
          refine ⟨m + 1, d, ?_, by simpa using Nat.succ_le_succ hm, ?_⟩
          · rw [he]
            congr 1
            omega
          · rw [List.take_succ_cons, List.filter_cons]
            simp [hb, hcount]
        · rw [if_neg h3]
          exact ⟨0, [], by simp, by simp, by simp⟩

lemma addBlockParas_true_count (cand : List Line) :
    ((addBlockParas cand true).filter (fun p => !pyIsBlank p.text)).length =
      (cand.filter (fun l => !pyIsBlank l)).length := by
  rw [addBlockParas, List.filter_map, List.length_map]
  congr 1
  apply List.filter_congr
  intro a _
  simp [Function.comp, pyIsBlank_pyStrip]

lemma addBlockParas_false_count (b : List Line) (hb : ∀ l ∈ b, pyIsBlank l = false) :
    ((addBlockParas b false).filter (fun p => !pyIsBlank p.text)).length = b.length := by
  rw [addBlockParas, List.filter_map, List.length_map]
  congr 1
  apply List.filter_eq_self.mpr
  intro a ha
  simp [hb a ha]

lemma docxBodyParas_count (blocks : List (List Line))
    (hb : ∀ b ∈ blocks, ∀ l ∈ b, pyIsBlank l = false) :
    ((docxBodyParas blocks).filter (fun p => !pyIsBlank p.text)).length =
      (blocks.map List.length).sum := by
  induction blocks with
  | nil => rfl
  | cons b rest ih =>
    rcases rest with _ | ⟨b2, rest2⟩
    · rw [docxBodyParas]
      rw [addBlockParas_false_count b (hb b (List.mem_cons_self b []))]
      simp
    · rw [docxBodyParas, List.filter_append, List.filter_append, List.length_append,
        List.length_append]
      rw [addBlockParas_false_count b (hb b (List.mem_cons_self b (b2 :: rest2)))]
      have hsp : (List.filter (fun p => !pyIsBlank p.text) [spacerParagraph]).length = 0 := rfl
      rw [hsp]
      rw [ih (fun bb hbb => hb bb (List.mem_cons_of_mem b hbb))]
      simp [Nat.add_assoc]

lemma pdf_blocks_count (blocks : List (List Line))
    (hb : ∀ b ∈ blocks, ∀ l ∈ b, pyIsBlank l = false) :
    ((blocks.map (fun b => pdfParagraph b body_style)).map
        (fun p => (p.paraLines.filter (fun l => !pyIsBlank l)).length)).sum =
      (blocks.map List.length).sum := by
  induction blocks with
  | nil => rfl
  | cons b rest ih =>
    rw [List.map_cons, List.map_cons, List.map_cons, List.sum_cons, List.sum_cons]
    have hfe : List.filter (fun l => !pyIsBlank l) b = b :=
      List.filter_eq_self.mpr (fun l hl => by
        simp [hb b (List.mem_cons_self b rest) l hl])
    rw [show (pdfParagraph b body_style).paraLines = b from rfl, hfe]
    rw [ih (fun bb hbb => hb bb (List.mem_cons_of_mem b hbb))]

lemma sum_split_blocks_length (text : List Char) (skip : Nat) :
    ((split_blocks text skip).map List.length).sum =
      (((splitLines text).drop skip).filter (fun l => !pyIsBlank l)).length := by
  have h1 := split_blocks_flatten text skip
  have h2 : ((split_blocks text skip).flatten).length =
      ((split_blocks text skip).map List.length).sum := List.length_flatten _
  rw [h1] at h2
  rw [← h2, List.length_map]

lemma nonblank_split_at (text : List Char) (k : Nat) :
    nonblankLineCount text =
      (((splitLines text).take k).filter (fun l => !pyIsBlank l)).length +
        (((splitLines text).drop k).filter (fun l => !pyIsBlank l)).length := by
  rw [nonblankLineCount]
  conv_lhs => rw [← List.take_append_drop k (splitLines text)]
  rw [List.filter_append, List.length_append]

lemma export_counts_no_header (text : List Char) (s : SectionsState)
    (cand : List Line) (k : Nat)
    (hs : (if s.candidate_block then cand.length else 0) = 0) :
    docxTextLineCount (build_docx text s cand k) = nonblankLineCount text ∧
    pdfTextLineCount (build_pdf text s cand k) = nonblankLineCount text := by
  have hnbl : ∀ b ∈ split_blocks text 0, ∀ l ∈ b, pyIsBlank l = false := by
    intro b hb l hl
    exact ((split_blocks_blocks_ok text 0 b hb).2 l hl).1
  have hsum : ((split_blocks text 0).map List.length).sum = nonblankLineCount text := by
    rw [sum_split_blocks_length, List.drop_zero, nonblankLineCount]
  have hdocx : build_docx text s cand k = docxBodyParas (split_blocks text 0) := by
    simp [build_docx, hs]
  constructor
  · rw [hdocx]
    rw [docxTextLineCount]
    rw [docxBodyParas_count (split_blocks text 0) hnbl, hsum]
  · rcases hbl : split_blocks text 0 with _ | ⟨b, bs⟩
    · have hpdf : build_pdf text s cand k = [pdfParagraph [] body_style] := by
        simp [build_pdf, hs, hbl]
      rw [hbl] at hsum
      simp only [List.map_nil, List.sum_nil] at hsum
      rw [hpdf]
      have h0 : pdfTextLineCount [pdfParagraph [] body_style] = 0 := rfl
      rw [h0, ← hsum]
    · have hpdf : build_pdf text s cand k =
          (b :: bs).map (fun bb => pdfParagraph bb body_style) := by
        simp [build_pdf, hs, hbl]
      rw [hpdf]
      rw [hbl] at hnbl hsum
      rw [pdfTextLineCount]
      rw [pdf_blocks_count (b :: bs) hnbl, hsum]

lemma export_counts_with_header (text : List Char) (s : SectionsState)
    (cand : List Line) (k : Nat) (hs : s.candidate_block = true)
    (hscan : scanHeader (splitLines text) false [] 0 = (cand, k))
    (hne : cand ≠ []) (hnb : ∀ l ∈ cand, pyIsBlank l = false) :
    docxTextLineCount (build_docx text s cand k) = nonblankLineCount text ∧
    pdfTextLineCount (build_pdf text s cand k) = nonblankLineCount text := by
  have hlen0 : cand.length ≠ 0 := by
    intro h0
    exact hne (List.length_eq_zero.mp h0)
  rcases scanHeader_spec (splitLines text) false [] 0 with ⟨m, d, heq, hm, hcount⟩
  rw [hscan] at heq
  have hd : cand = d := by
    have := congrArg Prod.fst heq
    simpa using this
  have hk : k = m := by
    have := congrArg Prod.snd heq
    simpa using this
  have hfilterc : cand.filter (fun l => !pyIsBlank l) = cand :=
    List.filter_eq_self.mpr (fun l hl => by simp [hnb l hl])
  have htake : (((splitLines text).take k).filter (fun l => !pyIsBlank l)).length =
      cand.length := by
    rw [hk, hcount, ← hd, hfilterc]
  have hnblk : ∀ b ∈ split_blocks text k, ∀ l ∈ b, pyIsBlank l = false := by
    intro b hb l hl
    exact ((split_blocks_blocks_ok text k b hb).2 l hl).1
  have hsum : ((split_blocks text k).map List.length).sum =
      (((splitLines text).drop k).filter (fun l => !pyIsBlank l)).length :=
    sum_split_blocks_length text k
  have hnbsplit := nonblank_split_at text k
  constructor
  · have hdocx : build_docx text s cand k =
        addBlockParas cand true ++ docxBodyParas (split_blocks text k) := by
      simp [build_docx, hs, hlen0]
    rw [hdocx, docxTextLineCount, List.filter_append, List.length_append]
    have h1 : ((addBlockParas cand true).filter (fun p => !pyIsBlank p.text)).length =
        cand.length := by
      rw [addBlockParas_true_count, hfilterc]
    rw [h1]
    rw [docxBodyParas_count (split_blocks text k) hnblk, hsum, hnbsplit, htake]
  · have hpdf : build_pdf text s cand k =
        pdfParagraph cand candidate_style ::
          (split_blocks text k).map (fun b => pdfParagraph b body_style) := by
      simp [build_pdf, hs, hlen0]
    rw [hpdf, pdfTextLineCount, List.map_cons, List.sum_cons]
    have h1 : ((pdfParagraph cand candidate_style).paraLines.filter
        (fun l => !pyIsBlank l)).length = cand.length := by
      rw [show (pdfParagraph cand candidate_style).paraLines = cand from rfl, hfilterc]
    rw [h1]
    rw [pdf_blocks_count (split_blocks text k) hnblk, hsum, hnbsplit, htake]

/-- Claim C5 (amended): with the header flag disabled (or an empty effective
header) both backends render exactly as many non-blank text lines as the
input has non-blank lines, for every text, header list and consumed count;
with the flag enabled the same equality holds provided the header lines and
consumed count are the scan result on the same text, the scan collected at
least one line, and every collected line is non-blank.  The original claim,
quantified over arbitrary header lists and consumed counts, is refuted by
the counterexample. -/
theorem c5_rendered_line_count (text : List Char) (s : SectionsState)
    (cand : List Line) (k : Nat) :
    ((if s.candidate_block then cand.length else 0) = 0 →
      docxTextLineCount (build_docx text s cand k) = nonblankLineCount text ∧
      pdfTextLineCount (build_pdf text s cand k) = nonblankLineCount text) ∧
    (s.candidate_block = true →
      scanHeader (splitLines text) false [] 0 = (cand, k) →
      cand ≠ [] →
      (∀ l ∈ cand, pyIsBlank l = false) →
      docxTextLineCount (build_docx text s cand k) = nonblankLineCount text ∧
      pdfTextLineCount (build_pdf text s cand k) = nonblankLineCount text) :=
  ⟨fun h => export_counts_no_header text s cand k h,
    fun h1 h2 h3 h4 => export_counts_with_header text s cand k h1 h2 h3 h4⟩

/-- Witness for C5 at concrete inputs, discharging the hypotheses of both
parts. -/
theorem c5_rendered_line_count_witness :
    (docxTextLineCount (build_docx (s2l "a\n\nb") ⟨false⟩ [s2l "x"] 5) =
        nonblankLineCount (s2l "a\n\nb") ∧
      pdfTextLineCount (build_pdf (s2l "a\n\nb") ⟨false⟩ [s2l "x"] 5) =
        nonblankLineCount (s2l "a\n\nb")) ∧
    (docxTextLineCount (build_docx (s2l " h\n\nbody") ⟨true⟩ [s2l "h"] 2) =
        nonblankLineCount (s2l " h\n\nbody") ∧
      pdfTextLineCount (build_pdf (s2l " h\n\nbody") ⟨true⟩ [s2l "h"] 2) =
        nonblankLineCount (s2l " h\n\nbody")) :=
  ⟨(c5_rendered_line_count (s2l "a\n\nb") ⟨false⟩ [s2l "x"] 5).1 (by decide),
    (c5_rendered_line_count (s2l " h\n\nbody") ⟨true⟩ [s2l "h"] 2).2 rfl (by decide)
      (by decide) (by decide)⟩

/-- Claim C9: on the empty input text with no effective header, both export
backends are total and degrade gracefully: the docx backend produces a valid
document with no paragraphs, and the PDF backend emits exactly one empty
placeholder paragraph (whose markup text is empty) so its story is never
degenerate. -/
theorem c9_empty_input_documents (s : SectionsState) (cand : List Line) (k : Nat)
    (h : (if s.candidate_block then cand.length else 0) = 0) :
    build_docx [] s cand k = [] ∧
    build_pdf [] s cand k = [pdfParagraph [] body_style] ∧
    (pdfParagraph [] body_style).text = [] := by
  have hbl : split_blocks [] 0 = [] := rfl
  refine ⟨?_, ?_, rfl⟩
  · simp [build_docx, h, hbl, docxBodyParas]
  · simp [build_pdf, h, hbl]

/-- Witness for C9 at concrete inputs. -/
theorem c9_empty_input_documents_witness :
    build_docx [] ⟨false⟩ [s2l "x"] 3 = [] ∧
    build_pdf [] ⟨false⟩ [s2l "x"] 3 = [pdfParagraph [] body_style] ∧
    (pdfParagraph [] body_style).text = [] :=
  c9_empty_input_documents ⟨false⟩ [s2l "x"] 3 (by decide)

lemma intercalate_single {α : Type} (s x : List α) : List.intercalate s [x] = x := by
  rw [List.intercalate, List.intersperse_single]
  simp

lemma intercalate_cons₂ {α : Type} (s x y : List α) (l : List (List α)) :
    List.intercalate s (x :: y :: l) = x ++ s ++ List.intercalate s (y :: l) := by
  rw [List.intercalate, List.intercalate, List.intersperse_cons₂, List.flatten_cons,
    List.flatten_cons, List.append_assoc]

lemma docxBodyParas_eq_intercalate (blocks : List (List Line)) :
    docxBodyParas blocks =
      List.intercalate [spacerParagraph] (blocks.map (fun b => addBlockParas b false)) := by
  induction blocks with
  | nil => rfl
  | cons b rest ih =>
    rcases rest with _ | ⟨b2, rest2⟩
    · rw [docxBodyParas, List.map_cons, List.map_nil, intercalate_single]
    · rw [docxBodyParas, ih]
      simp only [List.map_cons]
      rw [intercalate_cons₂]

/-- Claim C8 (amended): in the docx backend every body line paragraph keeps
the default left alignment with zero space before and after and single line
spacing, and exactly one blank spacer paragraph stands between successive
body blocks with none after the last; the PDF backend instead renders each
body block as one left-aligned flowable using the body style, whose space
after is eight points rather than zero, and inserts no spacer flowable at
all (its story is exactly the optional header flowable, one flowable per
block, and the placeholder for an otherwise empty story). -/
theorem c8_spacing_and_spacer_policy (text : List Char) (s : SectionsState)
    (cand : List Line) (k : Nat) :
    build_docx text s cand k =
      (if (if s.candidate_block then cand.length else 0) ≠ 0 then addBlockParas cand true
        else []) ++
        List.intercalate [spacerParagraph]
          ((split_blocks text
              (if (if s.candidate_block then cand.length else 0) ≠ 0 then k else 0)).map
            (fun b => addBlockParas b false)) ∧
    (∀ b : List Line, ∀ p ∈ addBlockParas b false,
      p.alignment = none ∧ p.spaceBefore = 0 ∧ p.spaceAfter = 0 ∧ p.lineSpacing = some 1) ∧
    build_pdf text s cand k =
      (if (if s.candidate_block then cand.length else 0) ≠ 0 then
          [pdfParagraph cand candidate_style]
        else []) ++
        ((split_blocks text
            (if (if s.candidate_block then cand.length else 0) ≠ 0 then k else 0)).map
          (fun b => pdfParagraph b body_style)) ++
        (if (if s.candidate_block then cand.length else 0) = 0 ∧
            split_blocks text
              (if (if s.candidate_block then cand.length else 0) ≠ 0 then k else 0) = [] then
          [pdfParagraph [] body_style]
        else []) ∧
    body_style.alignment = PdfAlign.taLeft ∧ body_style.spaceBefore = 0 ∧
      body_style.spaceAfter = 8 := by
  refine ⟨?_, ?_, ?_, rfl, rfl, rfl⟩
  · have h1 : build_docx text s cand k =
        (if (if s.candidate_block then cand.length else 0) ≠ 0 then addBlockParas cand true
          else []) ++
          docxBodyParas (split_blocks text
            (if (if s.candidate_block then cand.length else 0) ≠ 0 then k else 0)) := rfl
    rw [h1, docxBodyParas_eq_intercalate]
  · intro b p hp
    rcases List.mem_map.mp hp with ⟨line, _, rfl⟩
    exact ⟨rfl, rfl, rfl, rfl⟩
  · by_cases hcc : (if s.candidate_block then cand.length else 0) = 0
    · simp only [hcc, ne_eq, not_true_eq_false, if_false, reduceCtorEq]
      rcases hbl : split_blocks text 0 with _ | ⟨b, bs⟩
      · simp [build_pdf, hcc, hbl]
      · simp [build_pdf, hcc, hbl]
    · simp only [hcc, ne_eq, not_false_eq_true, if_true]
      simp [build_pdf, hcc]


lemma intercalate_cons_of_ne_nil (a : Line) (L : List Line) (hL : L ≠ []) :
    List.intercalate nl (a :: L) = a ++ '\n' :: List.intercalate nl L := by
  rcases L with _ | ⟨u, v⟩
  · exact absurd rfl hL
  · rw [intercalate_cons₂]
    simp [nl]

lemma intercalate_append_of_ne_nil (A B : List Line) (hA : A ≠ []) (hB : B ≠ []) :
    List.intercalate nl (A ++ B) =
      List.intercalate nl A ++ '\n' :: List.intercalate nl B := by
  induction A with
  | nil => exact absurd rfl hA
  | cons a A' ih =>
    rcases A' with _ | ⟨a2, A''⟩
    · rw [List.singleton_append, intercalate_cons_of_ne_nil a B hB, intercalate_single]
  
    · have e1 : (a :: a2 :: A'') ++ B = a :: ((a2 :: A'') ++ B) := rfl
      rw [e1, intercalate_cons_of_ne_nil a _ (by simp),
        intercalate_cons_of_ne_nil a (a2 :: A'') (by simp), ih (by simp)]
      simp

lemma splitLines_no_nl_single (l : Line) (h : ('\n' ∈ l → False)) :
    splitLines l = [l] := by
  induction l with
  | nil => rfl
  | cons c t ih =>
    have hc : c ≠ '\n' := fun he => h (by rw [he]; exact List.mem_cons_self _ _)
    have ht := ih (fun hm => h (List.mem_cons_of_mem c hm))
    exact splitLines_cons_of_ne hc ht

lemma splitLines_append_newline (l : Line) (rest : List Char) (h : ('\n' ∈ l → False)) :
    splitLines (l ++ '\n' :: rest) = l :: splitLines rest := by
  induction l with
  | nil =>
    rw [List.nil_append, splitLines]
    rcases hr : splitLines rest with _ | ⟨x, xs⟩
    · exact absurd hr (splitLines_ne_nil rest)
    · simp
  | cons c t ih =>
    have hc : c ≠ '\n' := fun he => h (by rw [he]; exact List.mem_cons_self _ _)
    have ht := ih (fun hm => h (List.mem_cons_of_mem c hm))
    rw [List.cons_append]
    exact splitLines_cons_of_ne hc ht

lemma splitLines_intercalate (ls : List Line) (hne : ls ≠ [])
    (h : ∀ l ∈ ls, ('\n' ∈ l → False)) :
    splitLines (List.intercalate nl ls) = ls := by
  induction ls with
  | nil => exact absurd rfl hne
  | cons x ls' ih =>
    rcases ls' with _ | ⟨y, t⟩
    · rw [intercalate_single]
      exact splitLines_no_nl_single x (h x (List.mem_cons_self _ _))
    · rw [intercalate_cons_of_ne_nil x (y :: t) (by simp),
        splitLines_append_newline x _ (h x (List.mem_cons_self _ _)),
        ih (by simp) (fun l hl => h l (List.mem_cons_of_mem x hl))]

lemma lstrip_intercalate_first (x : Line) (ls : List Line) (hx : pyIsBlank x = false) :
    lstrip (List.intercalate nl (x :: ls)) = List.intercalate nl (lstrip x :: ls) := by
  have hlx : lstrip x ≠ [] := lstrip_ne_nil_of_nonblank hx
  rcases ls with _ | ⟨y, t⟩
  · rw [intercalate_single, intercalate_single]
  · rw [intercalate_cons_of_ne_nil x (y :: t) (by simp),
      intercalate_cons_of_ne_nil (lstrip x) (y :: t) (by simp),
      lstrip_append_of_ne_nil hlx]

lemma intercalate_ne_nil_of_getLast (ls : List Line) (z : Line)
    (hz : ls.getLast? = some z) (hzne : z ≠ []) : List.intercalate nl ls ≠ [] := by
  rcases ls with _ | ⟨a, ls'⟩
  · simp at hz
  · rcases ls' with _ | ⟨b, t⟩
    · have : z = a := by simpa using hz.symm
      subst this
      rw [intercalate_single]
      exact hzne
    · rw [intercalate_cons_of_ne_nil a (b :: t) (by simp)]
      intro hcontra
      rcases List.append_eq_nil.mp hcontra with ⟨_, h2⟩
      simp at h2

lemma rstripLast_length (ls : List Line) : (rstripLast ls).length = ls.length := by
  induction ls with
  | nil => rfl
  | cons a t ih =>
    rcases t with _ | ⟨b, t'⟩
    · rfl
    · rw [rstripLast, List.length_cons, List.length_cons, ih]

lemma rstripLast_eq_self (ls : List Line) (z : Line) (hz : ls.getLast? = some z)
    (hrz : rstrip z = z) : rstripLast ls = ls := by
  induction ls with
  | nil => rfl
  | cons a t ih =>
    rcases t with _ | ⟨b, t'⟩
    · have : z = a := by simpa using hz.symm
      subst this
      rw [rstripLast, hrz]
    · rw [rstripLast, ih (by simpa using hz)]

lemma rstripLast_no_newline (ls : List Line) (h : ∀ l ∈ ls, ('\n' ∈ l → False)) :
    ∀ l ∈ rstripLast ls, ('\n' ∈ l → False) := by
  induction ls with
  | nil => simp [rstripLast]
  | cons a t ih =>
    rcases t with _ | ⟨b, t'⟩
    · intro l hl
      have : l = rstrip a := by simpa [rstripLast] using hl
      subst this
      intro hm
      exact h a (List.mem_cons_self _ _) (List.Sublist.mem hm (rstrip_sublist a))
    · intro l hl
      rw [rstripLast] at hl
      rcases List.mem_cons.mp hl with hl | hl
      · subst hl
        exact h l (List.mem_cons_self _ _)
      · exact ih (fun u hu => h u (List.mem_cons_of_mem a hu)) l hl

lemma rstripLast_getLast (ls : List Line) (z : Line) (hz : ls.getLast? = some z) :
    (rstripLast ls).getLast? = some (rstrip z) := by
  induction ls with
  | nil => simp at hz
  | cons a t ih =>
    rcases t with _ | ⟨b, t'⟩
    · have : z = a := by simpa using hz.symm
      subst this
      rfl
    · rw [rstripLast]
      have h2 := ih (by simpa using hz)
      rcases he : rstripLast (b :: t') with _ | ⟨c, t''⟩
      · have := rstripLast_length (b :: t')
        rw [he] at this
        simp at this
      · rw [he] at h2
        rw [List.getLast?_cons_cons]
        exact h2

lemma rstrip_intercalate_last (ls : List Line) (z : Line) (hz : ls.getLast? = some z)
    (hznb : pyIsBlank z = false) :
    rstrip (List.intercalate nl ls) = List.intercalate nl (rstripLast ls) := by
  induction ls with
  | nil => simp at hz
  | cons a t ih =>
    rcases t with _ | ⟨b, t'⟩
    · have : z = a := by simpa using hz.symm
      subst this
      rw [intercalate_single, rstripLast, intercalate_single]
    · have hz2 : (b :: t').getLast? = some z := by simpa using hz
      have hrec := ih hz2
      have hrz : rstrip z ≠ [] := rstrip_ne_nil_of_nonblank hznb
      have hlast2 : (rstripLast (b :: t')).getLast? = some (rstrip z) :=
        rstripLast_getLast (b :: t') z hz2
      have hne2 : List.intercalate nl (rstripLast (b :: t')) ≠ [] :=
        intercalate_ne_nil_of_getLast _ (rstrip z) hlast2 hrz
      have hne3 : rstrip (List.intercalate nl (b :: t')) ≠ [] := by
        rw [hrec]
        exact hne2
      have hne4 : rstrip ('\n' :: List.intercalate nl (b :: t')) ≠ [] := by
        have e : ('\n' :: List.intercalate nl (b :: t') : List Char) =
            ['\n'] ++ List.intercalate nl (b :: t') := rfl
        rw [e, rstrip_append_of_ne_nil hne3]
        simp
      rw [intercalate_cons_of_ne_nil a (b :: t') (by simp),
        rstrip_append_of_ne_nil hne4]
      have e2 : rstrip ('\n' :: List.intercalate nl (b :: t')) =
          '\n' :: rstrip (List.intercalate nl (b :: t')) := by
        have e : ('\n' :: List.intercalate nl (b :: t') : List Char) =
            ['\n'] ++ List.intercalate nl (b :: t') := rfl
        rw [e, rstrip_append_of_ne_nil hne3]
        rfl
      rw [e2, hrec, rstripLast]
      rcases he : rstripLast (b :: t') with _ | ⟨c, t''⟩
      · have := rstripLast_length (b :: t')
        rw [he] at this
        simp at this
      · rw [intercalate_cons_of_ne_nil a (c :: t'') (by simp), ← he]

lemma pyStrip_intercalate (x : Line) (ls : List Line) (z : Line)
    (hx : pyIsBlank x = false) (hz : (x :: ls).getLast? = some z)
    (hznb : pyIsBlank z = false) :
    pyStrip (List.intercalate nl (x :: ls)) =
      List.intercalate nl (rstripLast (lstrip x :: ls)) := by
  rw [pyStrip, lstrip_intercalate_first x ls hx]
  rcases ls with _ | ⟨y, t⟩
  · have : z = x := by simpa using hz.symm
    subst this
    refine rstrip_intercalate_last [lstrip z] (lstrip z) rfl ?_
    rw [pyIsBlank_lstrip]
    exact hznb
  · have hz2 : (lstrip x :: y :: t).getLast? = some z := by
      rw [List.getLast?_cons_cons]
      simpa using hz
    exact rstrip_intercalate_last (lstrip x :: y :: t) z hz2 hznb

lemma sepJoin_ne_nil (u : List Line) (t : List (List Line)) (hu : u ≠ []) :
    sepJoin (u :: t) ≠ [] := by
  rcases t with _ | ⟨u2, t'⟩
  · exact hu
  · rw [sepJoin]
    intro h
    rcases List.append_eq_nil.mp h with ⟨h1, _⟩
    rcases List.append_eq_nil.mp h1 with ⟨h2, _⟩
    exact hu h2

lemma sepJoin_units (uss : List (List Line)) (h : ∀ u ∈ uss, u ≠ []) :
    List.intercalate nl2 (uss.map (List.intercalate nl)) =
      List.intercalate nl (sepJoin uss) := by
  induction uss with
  | nil => rfl
  | cons u t ih =>
    rcases t with _ | ⟨u2, t'⟩
    · rw [List.map_cons, List.map_nil, intercalate_single, sepJoin]
    · have hu : u ≠ [] := h u (List.mem_cons_self _ _)
      have hu2 : u2 ≠ [] := h u2 (List.mem_cons_of_mem u (List.mem_cons_self _ _))
      have hS : sepJoin (u2 :: t') ≠ [] := sepJoin_ne_nil u2 t' hu2
      simp only [List.map_cons]
      rw [intercalate_cons₂]
      simp only [← List.map_cons]
      rw [ih (fun v hv => h v (List.mem_cons_of_mem u hv)), sepJoin]
      have e1 : u ++ [[]] ++ sepJoin (u2 :: t') = u ++ ([] :: sepJoin (u2 :: t')) := by
        simp
      rw [e1, intercalate_append_of_ne_nil u ([] :: sepJoin (u2 :: t')) hu (by simp),
        intercalate_cons_of_ne_nil [] (sepJoin (u2 :: t')) hS]
      simp [nl2]

lemma sepJoin_no_newline (uss : List (List Line))
    (h : ∀ u ∈ uss, ∀ l ∈ u, ('\n' ∈ l → False)) :
    ∀ l ∈ sepJoin uss, ('\n' ∈ l → False) := by
  induction uss with
  | nil => simp [sepJoin]
  | cons u t ih =>
    rcases t with _ | ⟨u2, t'⟩
    · intro l hl
      exact h u (List.mem_cons_self _ _) l hl
    · intro l hl
      rw [sepJoin] at hl
      rcases List.mem_append.mp hl with hl | hl
      · rcases List.mem_append.mp hl with hl | hl
        · exact h u (List.mem_cons_self _ _) l hl
        · have : l = [] := by simpa using hl
          subst this
          simp
      · exact ih (fun v hv => h v (List.mem_cons_of_mem u hv)) l hl

lemma sepJoin_getLast (uss : List (List Line)) :
    ∀ u z, uss.getLast? = some u → u.getLast? = some z →
      (sepJoin uss).getLast? = some z := by
  induction uss with
  | nil => intro u z h; simp at h
  | cons a t ih =>
    intro u z hu hz
    rcases t with _ | ⟨b, t'⟩
    · have : u = a := by simpa using hu.symm
      subst this
      exact hz
    · have hrec := ih u z (by simpa using hu) hz
      rw [sepJoin]
      have e1 : a ++ [[]] ++ sepJoin (b :: t') = a ++ ([] :: sepJoin (b :: t')) := by
        simp
      rw [e1, List.getLast?_append]
      have e2 : (([] : Line) :: sepJoin (b :: t')).getLast? = some z := by
        have e3 : (([] : Line) :: sepJoin (b :: t')) = [[]] ++ sepJoin (b :: t') := rfl
        rw [e3, List.getLast?_append, hrec]
        rfl
      rw [e2]
      rfl

lemma dropWhile_blank_sepJoin (b : List Line) (bs' : List (List Line))
    (hb : b ≠ []) (hnb : ∀ l ∈ b, pyIsBlank l = false) :
    (sepJoin (b :: bs')).dropWhile pyIsBlank = sepJoin (b :: bs') := by
  rcases b with _ | ⟨l0, b''⟩
  · exact absurd rfl hb
  · have h0 : pyIsBlank l0 = false := hnb l0 (List.mem_cons_self _ _)
    rcases bs' with _ | ⟨b2, t⟩
    · rw [sepJoin, List.dropWhile_cons_of_neg (by simp [h0])]
    · rw [sepJoin]
      have e1 : (l0 :: b'') ++ [[]] ++ sepJoin (b2 :: t) =
          l0 :: (b'' ++ [[]] ++ sepJoin (b2 :: t)) := by
        simp
      rw [e1, List.dropWhile_cons_of_neg (by simp [h0])]

lemma core_append_block (b : List Line) :
    ∀ (ls : List Line) (cur : List Line),
      (∀ l ∈ b, pyIsBlank l = false ∧ rstrip l = l) →
      splitBlocksCore (b ++ ls) cur = splitBlocksCore ls (cur ++ b) := by
  induction b with
  | nil => intro ls cur _; simp
  | cons l b' ih =>
    intro ls cur h
    have hl := h l (List.mem_cons_self _ _)
    rw [List.cons_append, splitBlocksCore, if_neg (by simp [hl.1]), hl.2,
      ih ls (cur ++ [l]) (fun u hu => h u (List.mem_cons_of_mem l hu))]
    simp

lemma core_flush (ls : List Line) (a : Line) (r : List Line) :
    splitBlocksCore ([] :: ls) (a :: r) = (a :: r) :: splitBlocksCore ls [] := by
  rw [splitBlocksCore]
  have hb : pyIsBlank ([] : Line) = true := rfl
  rw [if_pos hb]
  rfl

lemma core_sepJoin (bs : List (List Line)) (h : ∀ u ∈ bs, niceBlock u) :
    splitBlocksCore (sepJoin bs) [] = bs := by
  induction bs with
  | nil => rfl
  | cons b t ih =>
    have hb := h b (List.mem_cons_self _ _)
    rcases hbe : b with _ | ⟨l0, b''⟩
    · exact absurd hbe hb.1
    · rw [← hbe]
      rcases t with _ | ⟨b2, t'⟩
      · rw [sepJoin]
        have e1 : b = b ++ [] := by simp
        rw [e1, core_append_block b [] []
          (fun l hl => ⟨(hb.2 l hl).1, (hb.2 l hl).2.1⟩)]
        rw [splitBlocksCore]
        have hne : (([] : List Line) ++ b).isEmpty = false := by
          rw [List.nil_append, hbe]
          rfl
        rw [hne]
        simp [hbe]
      · rw [sepJoin]
        have e1 : b ++ [[]] ++ sepJoin (b2 :: t') = b ++ ([] :: sepJoin (b2 :: t')) := by
          simp
        rw [e1, core_append_block b ([] :: sepJoin (b2 :: t')) []
          (fun l hl => ⟨(hb.2 l hl).1, (hb.2 l hl).2.1⟩), List.nil_append]
        rw [hbe, core_flush, ← hbe, ih (fun u hu => h u (List.mem_cons_of_mem b hu))]

lemma stripNl_eq_self (l : Line) (c d : Char) (hh : l.head? = some c) (hc : c ≠ '\n')
    (hl : l.getLast? = some d) (hd : d ≠ '\n') : stripNl l = l := by
  rw [stripNl]
  have e1 : List.dropWhile (fun x => x == '\n') l = l := by
    rcases l with _ | ⟨c', t⟩
    · rfl
    · have : c' = c := by simpa using hh
      subst this
      rw [List.dropWhile_cons_of_neg (by simp [hc])]
  rw [e1]
  have e2 : List.dropWhile (fun x => x == '\n') l.reverse = l.reverse := by
    rcases hr : l.reverse with _ | ⟨d', t'⟩
    · rfl
    · have hposs : l.reverse.head? = some d := by
        rw [List.head?_reverse]
        exact hl
      rw [hr] at hposs
      have : d' = d := by simpa using hposs
      subst this
      rw [List.dropWhile_cons_of_neg (by simp [hd])]
  rw [e2, List.reverse_reverse]

lemma getLast?_cons_of_ne_nil {α : Type} (a : α) (l : List α) (h : l ≠ []) :
    (a :: l).getLast? = l.getLast? := by
  rcases l with _ | ⟨b, t⟩
  · exact absurd rfl h
  · exact List.getLast?_cons_cons

lemma nonblank_ne_nil {l : Line} (h : pyIsBlank l = false) : l ≠ [] := by
  intro he
  subst he
  exact absurd h (by decide)

lemma intercalate_getLast (b : List Line) :
    ∀ z : Line, b.getLast? = some z → z ≠ [] →
      (List.intercalate nl b).getLast? = z.getLast? := by
  induction b with
  | nil => intro z h; simp at h
  | cons a t ih =>
    intro z hz hzne
    rcases t with _ | ⟨b2, t'⟩
    · have : z = a := by simpa using hz.symm
      subst this
      rw [intercalate_single]
    · have hz2 : (b2 :: t').getLast? = some z := by simpa using hz
      have hne : List.intercalate nl (b2 :: t') ≠ [] :=
        intercalate_ne_nil_of_getLast _ z hz2 hzne
      rw [intercalate_cons_of_ne_nil a (b2 :: t') (by simp), List.getLast?_append,
        getLast?_cons_of_ne_nil '\n' _ hne, ih z hz2 hzne]
      have : z.getLast?.isSome := List.getLast?_isSome.mpr hzne
      rcases hzl : z.getLast? with _ | w
      · rw [hzl] at this
        simp at this
      · rfl

lemma intercalate_head (b : List Line) (l0 : Line) (hb : b.head? = some l0)
    (h : l0 ≠ []) : (List.intercalate nl b).head? = l0.head? := by
  rcases List.head?_eq_some_iff.mp hb with ⟨rest, hbe⟩
  subst hbe
  rcases rest with _ | ⟨b2, t⟩
  · rw [intercalate_single]
  · rw [intercalate_cons_of_ne_nil l0 (b2 :: t) (by simp)]
    rcases l0 with _ | ⟨c, t0⟩
    · exact absurd rfl h
    · rfl

lemma intercalate_block_ne_nil (b : List Line) (hb : niceBlock b) :
    List.intercalate nl b ≠ [] := by
  rcases hgl : b.getLast? with _ | z
  · exact absurd (List.getLast?_eq_none_iff.mp hgl) hb.1
  · exact intercalate_ne_nil_of_getLast b z hgl
      (nonblank_ne_nil (hb.2 z (List.mem_of_getLast?_eq_some hgl)).1)

lemma stripNl_intercalate_nice (b : List Line) (hb : niceBlock b) :
    stripNl (List.intercalate nl b) = List.intercalate nl b := by
  rcases hh : b.head? with _ | l0
  · exact absurd (List.head?_eq_none_iff.mp hh) hb.1
  · have hl0mem : l0 ∈ b := by
      rcases List.head?_eq_some_iff.mp hh with ⟨rest, hbe⟩
      rw [hbe]
      exact List.mem_cons_self _ _
    have hl0 := hb.2 l0 hl0mem
    have hl0ne : l0 ≠ [] := nonblank_ne_nil hl0.1
    rcases hc : l0.head? with _ | c
    · exact absurd (List.head?_eq_none_iff.mp hc) hl0ne
    · have hcmem : c ∈ l0 := by
        rcases List.head?_eq_some_iff.mp hc with ⟨t0, he⟩
        rw [he]
        exact List.mem_cons_self _ _
      have hcn : c ≠ '\n' := fun he => hl0.2.2 (he ▸ hcmem)
      rcases hgl : b.getLast? with _ | z
      · exact absurd (List.getLast?_eq_none_iff.mp hgl) hb.1
      · have hzfacts := hb.2 z (List.mem_of_getLast?_eq_some hgl)
        have hzne : z ≠ [] := nonblank_ne_nil hzfacts.1
        rcases hzl : z.getLast? with _ | d
        · exact absurd (List.getLast?_eq_none_iff.mp hzl) hzne
        · have hdmem : d ∈ z := List.mem_of_getLast?_eq_some hzl
          have hdn : d ≠ '\n' := fun he => hzfacts.2.2 (he ▸ hdmem)
          refine stripNl_eq_self (List.intercalate nl b) c d ?_ hcn ?_ hdn
          · rw [intercalate_head b l0 hh hl0ne, hc]
          · rw [intercalate_getLast b z hgl hzne, hzl]

lemma assemble_units_map (bs : List (List Line)) (h : ∀ b ∈ bs, niceBlock b) :
    bs.filterMap (fun b =>
        let bt := stripNl (List.intercalate nl b)
        if bt.isEmpty then none else some bt) =
      bs.map (List.intercalate nl) := by
  induction bs with
  | nil => rfl
  | cons b t ih =>
    have hb := h b (List.mem_cons_self _ _)
    have hstrip := stripNl_intercalate_nice b hb
    have hne : (List.intercalate nl b).isEmpty = false := by
      rcases he : List.intercalate nl b with _ | ⟨c, t0⟩
      · exact absurd he (intercalate_block_ne_nil b hb)
      · rfl
    rw [List.filterMap_cons, List.map_cons]
    simp only [hstrip, hne, Bool.false_eq_true, if_false]
    rw [ih (fun u hu => h u (List.mem_cons_of_mem b hu))]

lemma sepJoin_last_line (b : List Line) (bs' : List (List Line))
    (h : ∀ u ∈ b :: bs', niceBlock u) :
    ∃ z, (sepJoin (b :: bs')).getLast? = some z ∧ pyIsBlank z = false ∧ rstrip z = z := by
  rcases hgl : (b :: bs').getLast? with _ | ub
  · simp at hgl
  · have hub : niceBlock ub := h ub (List.mem_of_getLast?_eq_some hgl)
    rcases hz : ub.getLast? with _ | z
    · exact absurd (List.getLast?_eq_none_iff.mp hz) hub.1
    · have hzfacts := hub.2 z (List.mem_of_getLast?_eq_some hz)
      exact ⟨z, sepJoin_getLast (b :: bs') ub z hgl hz, hzfacts.1, hzfacts.2.1⟩

lemma split_pyStrip_icl (f : Line) (F' tail : List Line) (z : Line)
    (hf : pyIsBlank f = false)
    (hnl : ∀ l ∈ f :: (F' ++ tail), ('\n' ∈ l → False))
    (hlast : tail.getLast? = some z)
    (hznb : pyIsBlank z = false) (hzr : rstrip z = z) :
    split_blocks (pyStrip (List.intercalate nl (f :: (F' ++ tail)))) (f :: F').length =
      splitBlocksCore (tail.dropWhile pyIsBlank) [] := by
  have htne : tail ≠ [] := by
    intro h0
    rw [h0] at hlast
    simp at hlast
  have hFtne : F' ++ tail ≠ [] := by
    intro h0
    rcases List.append_eq_nil.mp h0 with ⟨_, h2⟩
    exact htne h2
  have hlast2 : (f :: (F' ++ tail)).getLast? = some z := by
    rw [getLast?_cons_of_ne_nil _ _ hFtne, List.getLast?_append, hlast]
    rfl
  rw [pyStrip_intercalate f (F' ++ tail) z hf hlast2 hznb]
  have hlast3 : (lstrip f :: (F' ++ tail)).getLast? = some z := by
    rw [getLast?_cons_of_ne_nil _ _ hFtne, List.getLast?_append, hlast]
    rfl
  rw [rstripLast_eq_self _ z hlast3 hzr]
  have hnl' : ∀ l ∈ lstrip f :: (F' ++ tail), ('\n' ∈ l → False) := by
    intro l hl
    rcases List.mem_cons.mp hl with hl | hl
    · subst hl
      intro hm
      exact hnl f (List.mem_cons_self _ _) (List.Sublist.mem hm (lstrip_sublist f))
    · exact hnl l (List.mem_cons_of_mem f hl)
  have e : split_blocks (List.intercalate nl (lstrip f :: (F' ++ tail)))
      (f :: F').length =
      splitBlocksCore
        ((((splitLines (List.intercalate nl (lstrip f :: (F' ++ tail)))).drop
            (f :: F').length)).dropWhile pyIsBlank) [] := rfl
  rw [e, splitLines_intercalate _ (by simp) hnl']
  have hdrop : (lstrip f :: (F' ++ tail)).drop (f :: F').length = tail := by
    rw [List.length_cons, List.drop_succ_cons, List.drop_left]
  rw [hdrop]

lemma roundtrip_blocks_with_header (F : List Line) (bs : List (List Line)) (m : Bool)
    (hF : F ≠ []) (hFc : ∀ l ∈ F, pyIsBlank l = false ∧ ('\n' ∈ l → False))
    (hbs : ∀ b ∈ bs, niceBlock b) :
    split_blocks (assemble_text_value F bs m) F.length = bs := by
  rcases F with _ | ⟨f, F'⟩
  · exact absurd rfl hF
  · have hf := (hFc f (List.mem_cons_self _ _)).1
    rcases bs with _ | ⟨b, bs'⟩
    · have hasm : assemble_text_value (f :: F') [] m =
          pyStrip (List.intercalate nl2 [List.intercalate nl (f :: F')]) := by
        cases m
        · rfl
        · rfl
      rw [hasm, intercalate_single]
      rcases hgl : (f :: F').getLast? with _ | z
      · simp at hgl
      · have hz := hFc z (List.mem_of_getLast?_eq_some hgl)
        rw [pyStrip_intercalate f F' z hf hgl hz.1]
        have hnl' : ∀ l ∈ rstripLast (lstrip f :: F'), ('\n' ∈ l → False) := by
          apply rstripLast_no_newline
          intro l hl
          rcases List.mem_cons.mp hl with hl | hl
          · subst hl
            intro hm
            exact (hFc f (List.mem_cons_self _ _)).2
              (List.Sublist.mem hm (lstrip_sublist f))
          · exact (hFc l (List.mem_cons_of_mem f hl)).2
        have hlen : (rstripLast (lstrip f :: F')).length = (f :: F').length := by
          rw [rstripLast_length]
          simp
        have hne2 : rstripLast (lstrip f :: F') ≠ [] := by
          intro h0
          rw [h0] at hlen
          simp at hlen
        have e : split_blocks
            (List.intercalate nl (rstripLast (lstrip f :: F'))) (f :: F').length =
            splitBlocksCore
              ((((splitLines (List.intercalate nl (rstripLast (lstrip f :: F')))).drop
                  (f :: F').length)).dropWhile pyIsBlank) [] := rfl
        rw [e, splitLines_intercalate _ hne2 hnl', ← hlen, List.drop_length]
        rfl
    · have hbnice := hbs b (List.mem_cons_self _ _)
      have hbne : b ≠ [] := hbnice.1
      have hbnb : ∀ l ∈ b, pyIsBlank l = false := fun l hl => (hbnice.2 l hl).1
      obtain ⟨z, hzl, hznb, hzr⟩ := sepJoin_last_line b bs' hbs
      have hsepnl : ∀ l ∈ sepJoin (b :: bs'), ('\n' ∈ l → False) :=
        sepJoin_no_newline (b :: bs') (fun u hu l hl => ((hbs u hu).2 l hl).2.2)
      cases m
      · have hasm : assemble_text_value (f :: F') (b :: bs') false =
            pyStrip (List.intercalate nl2 (List.intercalate nl (f :: F') ::
              (b :: bs').filterMap (fun b =>
                let bt := stripNl (List.intercalate nl b)
                if bt.isEmpty then none else some bt))) := rfl
        rw [hasm, assemble_units_map (b :: bs') hbs, ← List.map_cons,
          sepJoin_units ((f :: F') :: b :: bs')
            (by
              intro u hu
              rcases List.mem_cons.mp hu with hu | hu
              · subst hu; simp
              · exact (hbs u hu).1)]
        have hsj : sepJoin ((f :: F') :: b :: bs') =
            f :: (F' ++ ([] :: sepJoin (b :: bs'))) := by
          rw [sepJoin]
          simp
        rw [hsj]
        have hlast : (([] : Line) :: sepJoin (b :: bs')).getLast? = some z := by
          rw [getLast?_cons_of_ne_nil _ _ (sepJoin_ne_nil b bs' hbne)]
          exact hzl
        have hnl : ∀ l ∈ f :: (F' ++ ([] :: sepJoin (b :: bs'))), ('\n' ∈ l → False) := by
          intro l hl
          rcases List.mem_cons.mp hl with hl | hl
          · subst hl
            exact (hFc l (List.mem_cons_self _ _)).2
          · rcases List.mem_append.mp hl with hl | hl
            · exact (hFc l (List.mem_cons_of_mem f hl)).2
            · rcases List.mem_cons.mp hl with hl | hl
              · subst hl
                simp
              · exact hsepnl l hl
        rw [split_pyStrip_icl f F' ([] :: sepJoin (b :: bs')) z hf hnl hlast hznb hzr,
          List.dropWhile_cons_of_pos (by rfl),
          dropWhile_blank_sepJoin b bs' hbne hbnb]
        exact core_sepJoin (b :: bs') hbs
      · have hasm : assemble_text_value (f :: F') (b :: bs') true =
            pyStrip (List.intercalate nl2 (List.intercalate nl ((f :: F') ++ b) ::
              bs'.filterMap (fun b =>
                let bt := stripNl (List.intercalate nl b)
                if bt.isEmpty then none else some bt))) := rfl
        rw [hasm, assemble_units_map bs' (fun u hu => hbs u (List.mem_cons_of_mem b hu)),
          ← List.map_cons,
          sepJoin_units (((f :: F') ++ b) :: bs')
            (by
              intro u hu
              rcases List.mem_cons.mp hu with hu | hu
              · subst hu; simp
              · exact (hbs u (List.mem_cons_of_mem b hu)).1)]
        have hsj : sepJoin (((f :: F') ++ b) :: bs') =
            f :: (F' ++ sepJoin (b :: bs')) := by
          rcases bs' with _ | ⟨b2, t⟩
          · rw [sepJoin, sepJoin]
            simp
          · rw [sepJoin, sepJoin]
            simp
        rw [hsj]
        have hnl : ∀ l ∈ f :: (F' ++ sepJoin (b :: bs')), ('\n' ∈ l → False) := by
          intro l hl
          rcases List.mem_cons.mp hl with hl | hl
          · subst hl
            exact (hFc l (List.mem_cons_self _ _)).2
          · rcases List.mem_append.mp hl with hl | hl
            · exact (hFc l (List.mem_cons_of_mem f hl)).2
            · exact hsepnl l hl
        rw [split_pyStrip_icl f F' (sepJoin (b :: bs')) z hf hnl hzl hznb hzr,
          dropWhile_blank_sepJoin b bs' hbne hbnb]
        exact core_sepJoin (b :: bs') hbs

lemma sepJoin_cons_head (b : List Line) (bs' : List (List Line)) (l0 : Line)
    (b'' : List Line) (hb : b = l0 :: b'') :
    ∃ rest, sepJoin (b :: bs') = l0 :: rest := by
  subst hb
  rcases bs' with _ | ⟨b2, t⟩
  · exact ⟨b'', rfl⟩
  · refine ⟨b'' ++ [[]] ++ sepJoin (b2 :: t), ?_⟩
    rw [sepJoin]
    simp

lemma roundtrip_blocks_no_header (bs : List (List Line)) (m : Bool)
    (hbs : ∀ b ∈ bs, niceBlock b)
    (hhead : lstrip ((bs.headD []).headD []) = (bs.headD []).headD []) :
    split_blocks (assemble_text_value [] bs m) 0 = bs := by
  rcases bs with _ | ⟨b, bs'⟩
  · rfl
  · have hbnice := hbs b (List.mem_cons_self _ _)
    have hbne : b ≠ [] := hbnice.1
    have hbnb : ∀ l ∈ b, pyIsBlank l = false := fun l hl => (hbnice.2 l hl).1
    obtain ⟨z, hzl, hznb, hzr⟩ := sepJoin_last_line b bs' hbs
    have hsepnl : ∀ l ∈ sepJoin (b :: bs'), ('\n' ∈ l → False) :=
      sepJoin_no_newline (b :: bs') (fun u hu l hl => ((hbs u hu).2 l hl).2.2)
    have hasm : assemble_text_value [] (b :: bs') m =
        pyStrip (List.intercalate nl2 ((b :: bs').filterMap (fun b =>
          let bt := stripNl (List.intercalate nl b)
          if bt.isEmpty then none else some bt))) := by
      cases m
      · rfl
      · rfl
    rw [hasm, assemble_units_map (b :: bs') hbs,
      sepJoin_units (b :: bs') (fun u hu => (hbs u hu).1)]
    rcases hh : b.head? with _ | l0
    · exact absurd (List.head?_eq_none_iff.mp hh) hbne
    · rcases List.head?_eq_some_iff.mp hh with ⟨b'', hbe⟩
      obtain ⟨rest, hsj⟩ := sepJoin_cons_head b bs' l0 b'' hbe
      have hl0mem : l0 ∈ b := by
        rw [hbe]
        exact List.mem_cons_self _ _
      have hl0nb : pyIsBlank l0 = false := hbnb l0 hl0mem
      have hl0 : lstrip l0 = l0 := by
        rw [hbe] at hhead
        exact hhead
      rw [hsj]
      have hzl2 : (l0 :: rest).getLast? = some z := by
        rw [← hsj]
        exact hzl
      rw [pyStrip_intercalate l0 rest z hl0nb hzl2 hznb, hl0,
        rstripLast_eq_self _ z hzl2 hzr, ← hsj]
      have e : split_blocks (List.intercalate nl (sepJoin (b :: bs'))) 0 =
          splitBlocksCore
            ((splitLines (List.intercalate nl (sepJoin (b :: bs')))).dropWhile pyIsBlank)
            [] := rfl
      rw [e, splitLines_intercalate _ (sepJoin_ne_nil b bs' hbne) hsepnl,
        dropWhile_blank_sepJoin b bs' hbne hbnb]
      exact core_sepJoin (b :: bs') hbs

lemma core_head_of_ne_nil (ls : List Line) :
    ∀ cur : List Line, cur ≠ [] →
      ∃ t rest, splitBlocksCore ls cur = (cur ++ t) :: rest := by
  induction ls with
  | nil =>
    intro cur hc
    rcases cur with _ | ⟨a, r⟩
    · exact absurd rfl hc
    · exact ⟨[], [], by simp [splitBlocksCore]⟩
  | cons line rest2 ih =>
    intro cur hc
    rw [splitBlocksCore]
    by_cases hb : pyIsBlank line
    · rw [if_pos hb]
      rcases cur with _ | ⟨a, r⟩
      · exact absurd rfl hc
      · have e : (if ((a :: r : List Line)).isEmpty = true then splitBlocksCore rest2 []
            else (a :: r) :: splitBlocksCore rest2 []) =
            (a :: r) :: splitBlocksCore rest2 [] := rfl
        rw [e]
        exact ⟨[], splitBlocksCore rest2 [], by simp⟩
    · rw [if_neg hb]
      rcases ih (cur ++ [rstrip line]) (by simp) with ⟨t, rest3, he⟩
      refine ⟨rstrip line :: t, rest3, ?_⟩
      rw [he, List.append_assoc]
      rfl

lemma split_pyStrip_first_line (y : List Char) :
    lstrip (((split_blocks (pyStrip y) 0).headD []).headD []) =
      ((split_blocks (pyStrip y) 0).headD []).headD [] := by
  rcases hs : pyStrip y with _ | ⟨c, t⟩
  · rfl
  · have hc := pyStrip_head_not_space hs
    have hcn : c ≠ '\n' := by
      intro he
      rw [he] at hc
      exact absurd hc (by decide)
    rcases ht : splitLines t with _ | ⟨l, ls⟩
    · exact absurd ht (splitLines_ne_nil t)
    · have hsl : splitLines (c :: t) = (c :: l) :: ls := splitLines_cons_of_ne hcn ht
      have hnb : pyIsBlank (c :: l) = false := pyIsBlank_cons_of_neg hc
      have e : split_blocks (c :: t) 0 =
          splitBlocksCore ((splitLines (c :: t)).dropWhile pyIsBlank) [] := rfl
      rw [e, hsl, List.dropWhile_cons_of_neg (by simp [hnb]),
        splitBlocksCore, if_neg (by simp [hnb]), List.nil_append]
      rcases core_head_of_ne_nil ls [rstrip (c :: l)] (by simp) with ⟨t2, rest2, he⟩
      rw [he]
      show lstrip (rstrip (c :: l)) = rstrip (c :: l)
      rw [rstrip_cons_of_neg hc, lstrip_cons_of_neg hc]

/-- Claim C4 (amended): segmenting the reassembled text of an empty header
list with merge false returns exactly the block sequence B, with order and
line content preserved, for every non-empty B whose blocks are non-empty,
whose lines are non-blank, newline-free and already right-stripped, and
whose very first line carries no leading whitespace.  Without the two
stripping conditions the round trip fails, as the counterexample shows. -/
theorem c4_blocks_roundtrip (B : List (List Line)) (_hne : B ≠ [])
    (hnice : ∀ b ∈ B, niceBlock b)
    (hhead : lstrip ((B.headD []).headD []) = (B.headD []).headD []) :
    split_blocks (assemble_text_value [] B false) 0 = B :=
  roundtrip_blocks_no_header B false hnice hhead

/-- Witness for C4 at concrete inputs. -/
theorem c4_blocks_roundtrip_witness :
    split_blocks
        (assemble_text_value [] [[s2l "hello", s2l "wor ld"], [s2l "bye"]] false) 0 =
      [[s2l "hello", s2l "wor ld"], [s2l "bye"]] :=
  c4_blocks_roundtrip [[s2l "hello", s2l "wor ld"], [s2l "bye"]]
    (by decide) (by decide) (by decide)

/-- Claim C3 (amended): re-running the detect-segment-reassemble cycle on
its own output with the same fallback header lines and the same merge flag
is a fixed point (header detection and segmentation return the same header
lines, consumed count and blocks for the second output as for the first),
provided every fallback header line is non-blank and free of embedded
newlines; the empty fallback list also qualifies.  A whitespace-only
fallback line breaks the property, as the counterexample shows. -/
theorem c3_cycle_fixed_point (F : List Line) (m : Bool) (t : List Char)
    (hF : ∀ l ∈ F, pyIsBlank l = false ∧ ('\n' ∈ l → False)) :
    detectSegment (renderCycle (renderCycle t F m) F m) F =
      detectSegment (renderCycle t F m) F := by
  rcases F with _ | ⟨f, F'⟩
  · have e1 : detectSegment (renderCycle (renderCycle t [] m) [] m) [] =
        ((([], 0) : List Line × Nat),
          split_blocks (renderCycle (renderCycle t [] m) [] m) 0) := rfl
    have e2 : detectSegment (renderCycle t [] m) [] =
        ((([], 0) : List Line × Nat), split_blocks (renderCycle t [] m) 0) := rfl
    have e3 : renderCycle (renderCycle t [] m) [] m =
        assemble_text_value [] (split_blocks (renderCycle t [] m) 0) m := rfl
    rcases assemble_is_pyStrip [] (split_blocks t 0) m with ⟨y, hy⟩
    have hy2 : renderCycle t [] m = pyStrip y := hy
    have key : split_blocks
        (assemble_text_value [] (split_blocks (renderCycle t [] m) 0) m) 0 =
        split_blocks (renderCycle t [] m) 0 := by
      rw [hy2]
      apply roundtrip_blocks_no_header
      · intro b hb
        exact split_blocks_blocks_ok (pyStrip y) 0 b hb
      · exact split_pyStrip_first_line y
    rw [e1, e2, e3, key]
  · rcases assemble_is_pyStrip (detectSegment t (f :: F')).1.1
      (detectSegment t (f :: F')).2 m with ⟨y1, hy1⟩
    have ht1 : renderCycle t (f :: F') m = pyStrip y1 := hy1
    have hdet1 : extract_candidate_lines_from_text (renderCycle t (f :: F') m)
        (f :: F') = (f :: F', (f :: F').length) := by
      rw [ht1]
      exact extract_eq_fallback_of_scan_nil _ _ (scan_nil_of_pyStrip y1)
    have hds1 : detectSegment (renderCycle t (f :: F') m) (f :: F') =
        ((f :: F', (f :: F').length),
          split_blocks (renderCycle t (f :: F') m) (f :: F').length) := by
      show (extract_candidate_lines_from_text (renderCycle t (f :: F') m) (f :: F'),
        split_blocks (renderCycle t (f :: F') m)
          (if (extract_candidate_lines_from_text (renderCycle t (f :: F') m)
              (f :: F')).1.isEmpty then 0
            else (extract_candidate_lines_from_text (renderCycle t (f :: F') m)
              (f :: F')).2)) = _
      rw [hdet1]
      rfl
    have ht2 : renderCycle (renderCycle t (f :: F') m) (f :: F') m =
        assemble_text_value (f :: F')
          (split_blocks (renderCycle t (f :: F') m) (f :: F').length) m := by
      show assemble_text_value
        (detectSegment (renderCycle t (f :: F') m) (f :: F')).1.1
        (detectSegment (renderCycle t (f :: F') m) (f :: F')).2 m = _
      rw [hds1]
    rcases assemble_is_pyStrip (f :: F')
      (split_blocks (renderCycle t (f :: F') m) (f :: F').length) m with ⟨y2, hy2⟩
    have hdet2 : extract_candidate_lines_from_text
        (renderCycle (renderCycle t (f :: F') m) (f :: F') m) (f :: F') =
        (f :: F', (f :: F').length) := by
      rw [ht2, hy2]
      exact extract_eq_fallback_of_scan_nil _ _ (scan_nil_of_pyStrip y2)
    have hds2 : detectSegment (renderCycle (renderCycle t (f :: F') m) (f :: F') m)
        (f :: F') =
        ((f :: F', (f :: F').length),
          split_blocks (renderCycle (renderCycle t (f :: F') m) (f :: F') m)
            (f :: F').length) := by
      show (extract_candidate_lines_from_text
          (renderCycle (renderCycle t (f :: F') m) (f :: F') m) (f :: F'),
        split_blocks (renderCycle (renderCycle t (f :: F') m) (f :: F') m)
          (if (extract_candidate_lines_from_text
              (renderCycle (renderCycle t (f :: F') m) (f :: F') m)
              (f :: F')).1.isEmpty then 0
            else (extract_candidate_lines_from_text
              (renderCycle (renderCycle t (f :: F') m) (f :: F') m)
              (f :: F')).2)) = _
      rw [hdet2]
      rfl
    have key : split_blocks (renderCycle (renderCycle t (f :: F') m) (f :: F') m)
        (f :: F').length =
        split_blocks (renderCycle t (f :: F') m) (f :: F').length := by
      rw [ht2]
      apply roundtrip_blocks_with_header (f :: F') _ m (by simp) hF
      intro b hb
      exact split_blocks_blocks_ok (renderCycle t (f :: F') m) (f :: F').length b hb
    rw [hds1, hds2, key]

/-- Witness for C3 at concrete inputs. -/
theorem c3_cycle_fixed_point_witness :
    detectSegment
        (renderCycle (renderCycle (s2l " x\n\nbody") [s2l "Jane"] false)
          [s2l "Jane"] false) [s2l "Jane"] =
      detectSegment (renderCycle (s2l " x\n\nbody") [s2l "Jane"] false) [s2l "Jane"] :=
  c3_cycle_fixed_point [s2l "Jane"] false (s2l " x\n\nbody") (by decide)
